import Mathlib

/-!
Shallow embedding of the Mynder journaling application (src/app.js):
the password-derived encryption layer (deriveKey, encryptData, decryptData,
setupPassword, unlockWithPassword, migrateFromLocalStorage, lockApp), the
per-collection render/mutation operations, and the reminder engine
(checkJournalReminder, checkEventReminders).

External platform collaborators (Web Crypto, JSON.stringify/parse,
TextEncoder/TextDecoder, Date, localStorage, Dexie) are modelled as concrete
executable Lean functions that satisfy their documented contracts; the
repository functions themselves are translated statement by statement from
src/app.js.
-/

/-- Records handled by the application are flat JSON objects whose field values
are null, booleans, numbers or strings (JournalEntry, Task, CalendarEvent and
the legacy localStorage arrays all have this shape).  `JsPrim` is one such
field value. -/
inductive JsPrim where
  | null : JsPrim
  | bool (b : Bool) : JsPrim
  | num (n : Int) : JsPrim
  | str (s : String) : JsPrim
deriving DecidableEq, Repr

/-- A JSON-serializable record: an ordered list of named primitive fields. -/
abbrev JsRecord := List (String × JsPrim)

/-- Digit extraction loop for `natEnc`, structurally recursive on a fuel
bound so that the encoder reduces definitionally on concrete inputs. -/
def natEncGo : Nat → Nat → List Nat
  | 0, _ => []
  | fuel + 1, n =>
    if n < 255 then [n, 255]
    else (n % 255) :: natEncGo fuel (n / 255)

/-- Self-delimiting byte encoding of a natural number: base-255 digits in
little-endian order, terminated by the byte 255.  Building block of the
modelled platform serialization (`TextEncoder` applied to `JSON.stringify`
output); every emitted byte is below 256. -/
def natEnc (n : Nat) : List Nat := natEncGo (n + 1) n

/-- Reads one `natEnc`-encoded number off the front of a byte list. -/
def parseNatB : List Nat → Option (Nat × List Nat)
  | [] => none
  | b :: bs =>
    if b = 255 then some (0, bs)
    else
      match parseNatB bs with
      | some (m, r) => some (b + 255 * m, r)
      | none => none

/-- Encodes a list of characters, each code point as a `natEnc` chunk. -/
def encChars : List Char → List Nat
  | [] => []
  | c :: cs => natEnc c.toNat ++ encChars cs

/-- Reads back exactly `n` characters encoded by `encChars`. -/
def parseChars : Nat → List Nat → Option (List Char × List Nat)
  | 0, bs => some ([], bs)
  | Nat.succ k, bs =>
    match parseNatB bs with
    | some (m, r) =>
      match parseChars k r with
      | some (cs, r2) => some (Char.ofNat m :: cs, r2)
      | none => none
    | none => none

/-- Encodes one string: length then character codes. -/
def encStr (s : String) : List Nat :=
  natEnc s.data.length ++ encChars s.data

/-- Reads one string back. -/
def parseStr (bs : List Nat) : Option (String × List Nat) :=
  match parseNatB bs with
  | some (n, r) =>
    match parseChars n r with
    | some (cs, r2) => some (String.mk cs, r2)
    | none => none
  | none => none

/-- Encodes one primitive field value. -/
def encPrim : JsPrim → List Nat
  | .null => [0]
  | .bool b => [1, if b then 1 else 0]
  | .num (Int.ofNat m) => 2 :: 0 :: natEnc m
  | .num (Int.negSucc m) => 2 :: 1 :: natEnc m
  | .str s => 3 :: encStr s

/-- Reads one primitive field value back. -/
def parsePrim : List Nat → Option (JsPrim × List Nat)
  | 0 :: r => some (.null, r)
  | 1 :: b :: r => some (.bool (b = 1), r)
  | 2 :: 0 :: r =>
    match parseNatB r with
    | some (m, r2) => some (.num (Int.ofNat m), r2)
    | none => none
  | 2 :: 1 :: r =>
    match parseNatB r with
    | some (m, r2) => some (.num (Int.negSucc m), r2)
    | none => none
  | 3 :: r =>
    match parseStr r with
    | some (s, r2) => some (.str s, r2)
    | none => none
  | _ => none

/-- Encodes the fields of a record in order. -/
def encFields : JsRecord → List Nat
  | [] => []
  | (k, v) :: fs => encStr k ++ encPrim v ++ encFields fs

/-- Reads back exactly `n` fields. -/
def parseFields : Nat → List Nat → Option (JsRecord × List Nat)
  | 0, bs => some ([], bs)
  | Nat.succ j, bs =>
    match parseStr bs with
    | some (k, r1) =>
      match parsePrim r1 with
      | some (v, r2) =>
        match parseFields j r2 with
        | some (fs, r3) => some ((k, v) :: fs, r3)
        | none => none
      | none => none
    | none => none

/-- Model of `new TextEncoder().encode(JSON.stringify(data))`: the
platform pair serializes a record to bytes so that the paired parse
recovers it exactly. -/
def serializeRecord (rec : JsRecord) : List Nat :=
  natEnc rec.length ++ encFields rec

/-- Model of `JSON.parse(new TextDecoder().decode(bytes))`: total inverse of
`serializeRecord` on its image, `none` on any malformed input. -/
def deserializeRecord (bs : List Nat) : Option JsRecord :=
  match parseNatB bs with
  | some (n, r) =>
    match parseFields n r with
    | some (fs, []) => some fs
    | _ => none
  | none => none

/-- A symmetric key is a byte list; `crypto.subtle` key objects are opaque
handles around such material. -/
abbrev CryptoKey := List Nat

/-- Model of `crypto.subtle.digest` with SHA-256: a fixed concrete
32-byte digest function.  The repository code only ever feeds digests to
byte-for-byte equality checks, so any concrete function models the platform
primitive faithfully for the claims. -/
def sha256 (bs : List Nat) : List Nat :=
  (List.range 32).map
    (fun i => (bs.foldl (fun a b => (a * 131 + b + 7) % 4096) (i * 97 + bs.length)) % 256)

/-- Model of `new TextEncoder().encode(password)`. -/
def utf8Encode (s : String) : List Nat := s.data.map Char.toNat

/-- Model of `deriveKey(password, salt)` from src/app.js lines 16-38:
PBKDF2(SHA-256, 100000 iterations) is a deterministic function of the
password and the salt, distinct from the bare password digest. -/
def deriveKey (password : String) (salt : List Nat) : CryptoKey :=
  sha256 (utf8Encode password ++ 0 :: salt)

/-- One keystream byte of the modelled AES-GCM cipher, a concrete function of
key, iv and position. -/
def ksByte (key iv : List Nat) (n : Nat) : Nat :=
  ((key.foldl (fun a b => a * 31 + b + 7) 5)
    + (iv.foldl (fun a b => a * 37 + b + 11) 3) + n * 13) % 256

/-- XORs a byte list against the keystream starting at position `n`;
applying it twice restores the input (the CTR core of AES-GCM). -/
def applyKs (key iv : List Nat) : Nat → List Nat → List Nat
  | _, [] => []
  | n, b :: bs => (b ^^^ ksByte key iv n) :: applyKs key iv (n + 1) bs

/-- The 16-byte authentication tag of the modelled AES-GCM cipher.  Like the
real GHASH tag it depends on the key, the iv and the plaintext; its first
twelve bytes vary injectively with a 12-byte iv. -/
def tagBytes (key iv pt : List Nat) : List Nat :=
  let d := (pt.foldl (fun a c => a * 131 + c + 1) 17)
    + (key.foldl (fun a c => a * 61 + c + 3) 29)
  iv.map (fun b => (b + d) % 256)
    ++ [pt.length % 256, (pt.foldl (· + ·) 0) % 256, (d % 256), ((d / 256) % 256)]

/-- Model of `crypto.subtle.encrypt` under AES-GCM with the given iv:
ciphertext body followed by the 16-byte tag. -/
def aesGcmEncrypt (key iv pt : List Nat) : List Nat :=
  applyKs key iv 0 pt ++ tagBytes key iv pt

/-- Model of `crypto.subtle.decrypt` under AES-GCM with the given iv: splits
off the trailing tag, inverts the keystream, and rejects the ciphertext when
the recomputed tag does not match (wrong key, corruption or tampering). -/
def aesGcmDecrypt (key iv ct : List Nat) : Option (List Nat) :=
  if ct.length < 16 then none
  else
    let body := ct.take (ct.length - 16)
    let tg := ct.drop (ct.length - 16)
    let pt := applyKs key iv 0 body
    if tg = tagBytes key iv pt then some pt else none

/-- Errors raised by the embedded code: a missing in-memory key
(the no-encryption-key throw) and a failed authenticated decryption
(the decryption-failed throw). -/
inductive JsError where
  | noKey : JsError
  | decryptionFailed : JsError
deriving DecidableEq, Repr

/-- The only representation written to durable storage:
an object holding the iv array and the ciphertext array. -/
structure EncryptedRecord where
  iv : List Nat
  data : List Nat
deriving DecidableEq, Repr

/-- Function `encryptData(data)` from src/app.js lines 41-59.  The in-memory key is
passed explicitly (the global `encryptionKey`), as is the 12-byte value the
call to `crypto.getRandomValues(new Uint8Array(12))` produced. -/
def encryptData (encryptionKey : Option CryptoKey) (iv : List Nat)
    (data : JsRecord) : Except JsError EncryptedRecord :=
  match encryptionKey with
  | none => .error .noKey
  | some key => .ok ⟨iv, aesGcmEncrypt key iv (serializeRecord data)⟩

/-- Function `decryptData(encryptedObj)` from src/app.js lines 62-80: AEAD-decrypts
and JSON-parses, turning any failure into the single decryption error. -/
def decryptData (encryptionKey : Option CryptoKey)
    (encryptedObj : EncryptedRecord) : Except JsError JsRecord :=
  match encryptionKey with
  | none => .error .noKey
  | some key =>
    match aesGcmDecrypt key encryptedObj.iv encryptedObj.data with
    | some pt =>
      match deserializeRecord pt with
      | some v => .ok v
      | none => .error .decryptionFailed
    | none => .error .decryptionFailed

/-- One row of a Dexie collection: the auto-incremented primary key `++id`
plus the stored encrypted object. -/
structure StoredRecord where
  sid : Nat
  enc : EncryptedRecord
deriving DecidableEq, Repr

/-- The Credential persisted in the settings collection under the fixed key
`passwordHash`: value bytes holding the SHA-256 digest and 16 random salt bytes. -/
structure Credential where
  value : List Nat
  salt : List Nat
deriving DecidableEq, Repr

/-- The MynderDB Dexie database: three encrypted record collections with
their auto-increment counters, and the settings row. -/
structure MynderDB where
  journals : List StoredRecord
  tasks : List StoredRecord
  events : List StoredRecord
  nextJournalId : Nat
  nextTaskId : Nat
  nextEventId : Nat
  settings : Option Credential
deriving DecidableEq, Repr

/-- The whole mutable state of the running page: the database, the global
`encryptionKey`, the three decrypted in-memory working sets, the
`lastJournalDate` variable, the legacy plaintext localStorage slots (already
JSON-parsed; `none` models an absent slot, which the source reads back as the
empty array), the notification-flag entries of localStorage, and the
stream of values the platform random source will produce next
(`crypto.getRandomValues`, one list per call). -/
structure AppState where
  db : MynderDB
  encryptionKey : Option CryptoKey
  journalEntries : List JsRecord
  tasks : List JsRecord
  events : List JsRecord
  lastJournalDate : String
  legacyJournals : Option (List JsRecord)
  legacyTasks : Option (List JsRecord)
  legacyEvents : Option (List JsRecord)
  localStorageFlags : List (String × String)
  ivSupply : List (List Nat)
deriving DecidableEq, Repr

/-- Draws the next value from the platform random source. -/
def drawRandom (st : AppState) : List Nat × AppState :=
  (st.ivSupply.headD (List.replicate 12 0), { st with ivSupply := st.ivSupply.tail })

/-- Model of `localStorage.getItem`. -/
def lsGet : List (String × String) → String → Option String
  | [], _ => none
  | p :: ps, k => if p.1 = k then some p.2 else lsGet ps k

/-- Model of `localStorage.removeItem`. -/
def lsRemove : List (String × String) → String → List (String × String)
  | [], _ => []
  | p :: ps, k => if p.1 = k then lsRemove ps k else p :: lsRemove ps k

/-- Model of `localStorage.setItem`. -/
def lsSet (ls : List (String × String)) (k v : String) : List (String × String) :=
  (k, v) :: lsRemove ls k

/-- JavaScript property access `record.field`: `none` models `undefined`. -/
def fieldOf (r : JsRecord) : String → Option JsPrim
  | k =>
    match r with
    | [] => none
    | (k', v) :: fs => if k' = k then some v else fieldOf fs k

/-- JavaScript property assignment `record.field = value` (replaces the field
in place, or appends it when absent). -/
def setField (r : JsRecord) (k : String) (v : JsPrim) : JsRecord :=
  match r with
  | [] => [(k, v)]
  | (k', v') :: fs => if k' = k then (k, v) :: fs else (k', v') :: setField fs k v

/-- JavaScript truthiness of a property value (`undefined`, `null`, `false`,
`0` and the empty string are falsy). -/
def jsTruthy : Option JsPrim → Bool
  | none => false
  | some .null => false
  | some (.bool b) => b
  | some (.num n) => decide (n ≠ 0)
  | some (.str s) => decide (s ≠ "")

/-- Truthiness of a `localStorage.getItem` result (null and the empty string are falsy). -/
def strTruthy : Option String → Bool
  | none => false
  | some s => decide (s ≠ "")

/-- Template-literal rendering of a property value, as in
the notified-prefixed key built from the event id. -/
def jsPrimToString : Option JsPrim → String
  | some (.str s) => s
  | some (.num n) => toString n
  | some (.bool b) => if b then "true" else "false"
  | some .null => "null"
  | none => "undefined"

/-- Milliseconds per local calendar day. -/
def dayMs : Int := 86400000

/-- The local calendar day index of a timestamp (ms since epoch); the platform
Date is modelled in a fixed local timezone, so a calendar day is a
`dayMs`-aligned interval and `Math.floor` is `Int.fdiv`. -/
def dayIndex (t : Int) : Int := t.fdiv dayMs

/-- Byte-list rendering of an integer used inside modelled date strings. -/
def intChars : Int → List Char
  | Int.ofNat m => 'p' :: (natEnc m).map Char.ofNat
  | Int.negSucc m => 'q' :: (natEnc m).map Char.ofNat

/-- Reads an `intChars` rendering back. -/
def parseIntChars : List Char → Int
  | 'p' :: cs =>
    match parseNatB (cs.map Char.toNat) with
    | some (m, _) => Int.ofNat m
    | none => 0
  | 'q' :: cs =>
    match parseNatB (cs.map Char.toNat) with
    | some (m, _) => Int.negSucc m
    | none => 0
  | _ => 0

/-- Model of `Date.prototype.toDateString`: a canonical rendering of the
local calendar date of a timestamp. -/
def toDateString (t : Int) : String := String.mk ('d' :: intChars (dayIndex t))

/-- Model of `new Date(s).getTime()` on the strings this code stores:
a `toDateString` rendering parses to local midnight of that calendar day and
a `toISOString` rendering parses back to its exact timestamp; anything else
is out of the modelled date language. -/
def jsParseDate (s : String) : Int :=
  match s.data with
  | 'd' :: cs => parseIntChars cs * dayMs
  | 't' :: cs => parseIntChars cs
  | _ => 0

/-- Model of `Date.prototype.toISOString`: a canonical exact-timestamp
rendering. -/
def toIsoString (t : Int) : String := String.mk ('t' :: intChars t)

/-- Value of `new Date(x)` for a property read from a record. -/
def jsDateValue : Option JsPrim → Int
  | some (.str s) => jsParseDate s
  | some (.num n) => n
  | _ => 0

/-- The hash comparison loop of `unlockWithPassword` (src/app.js lines
125-128): length check first, then an index walk that returns `false` at the
first mismatching byte. -/
def compareHashes : List Nat → List Nat → Bool
  | [], [] => true
  | x :: xs, y :: ys => if x ≠ y then false else compareHashes xs ys
  | _, _ => false

/-- Function `unlockWithPassword(password)` from src/app.js lines 112-135: loads the
stored Credential, digests the supplied password, compares byte lists, and
on match installs the derived key in memory.  Returns the promise value
together with the successor state. -/
def unlockWithPassword (password : String) (st : AppState) : Bool × AppState :=
  match st.db.settings with
  | none => (false, st)
  | some setting =>
    let hashArray := sha256 (utf8Encode password)
    let storedHash := setting.value
    if compareHashes hashArray storedHash then
      (true, { st with encryptionKey := some (deriveKey password setting.salt) })
    else
      (false, st)

/-- The journal branch of `migrateFromLocalStorage` (src/app.js lines
143-149): encrypt each legacy record in order with a fresh random iv and
`db.journals.add` it.  The random draw happens inside `encryptData` after
its key check, so no randomness is consumed when the key is absent. -/
def migrateJournalsLoop : List JsRecord → AppState → AppState × Except JsError Unit
  | [], st => (st, .ok ())
  | r :: rs, st =>
    match st.encryptionKey with
    | none => (st, .error .noKey)
    | some key =>
      let (iv, st1) := drawRandom st
      match encryptData (some key) iv r with
      | .error e => (st1, .error e)
      | .ok enc =>
        let st2 := { st1 with db := { st1.db with
          journals := st1.db.journals ++ [⟨st1.db.nextJournalId, enc⟩],
          nextJournalId := st1.db.nextJournalId + 1 } }
        migrateJournalsLoop rs st2

/-- The task branch of `migrateFromLocalStorage` (src/app.js lines 151-157). -/
def migrateTasksLoop : List JsRecord → AppState → AppState × Except JsError Unit
  | [], st => (st, .ok ())
  | r :: rs, st =>
    match st.encryptionKey with
    | none => (st, .error .noKey)
    | some key =>
      let (iv, st1) := drawRandom st
      match encryptData (some key) iv r with
      | .error e => (st1, .error e)
      | .ok enc =>
        let st2 := { st1 with db := { st1.db with
          tasks := st1.db.tasks ++ [⟨st1.db.nextTaskId, enc⟩],
          nextTaskId := st1.db.nextTaskId + 1 } }
        migrateTasksLoop rs st2

/-- The event branch of `migrateFromLocalStorage` (src/app.js lines 159-165). -/
def migrateEventsLoop : List JsRecord → AppState → AppState × Except JsError Unit
  | [], st => (st, .ok ())
  | r :: rs, st =>
    match st.encryptionKey with
    | none => (st, .error .noKey)
    | some key =>
      let (iv, st1) := drawRandom st
      match encryptData (some key) iv r with
      | .error e => (st1, .error e)
      | .ok enc =>
        let st2 := { st1 with db := { st1.db with
          events := st1.db.events ++ [⟨st1.db.nextEventId, enc⟩],
          nextEventId := st1.db.nextEventId + 1 } }
        migrateEventsLoop rs st2

/-- The JavaScript value an `async function` resolves with; a bare `return`
or falling off the end resolves with `undefined`. -/
inductive JsValue where
  | undefined : JsValue
  | num (n : Nat) : JsValue
  | bool (b : Bool) : JsValue
deriving DecidableEq, Repr

/-- The `if (oldJournals.length > 0)` block of `migrateFromLocalStorage`
(src/app.js lines 143-149): encrypt-and-insert every legacy journal record,
then `localStorage.removeItem` on the journalEntries slot.  The source reads the
three legacy snapshots up front; since no migration loop touches a legacy
slot and each block clears only its own slot, reading the snapshot at block
entry is equivalent. -/
def migrateJournalsPhase (st : AppState) : AppState × Except JsError Unit :=
  let oldJournals := st.legacyJournals.getD []
  if oldJournals.length > 0 then
    match migrateJournalsLoop oldJournals st with
    | (st1, .ok ()) => ({ st1 with legacyJournals := none }, .ok ())
    | (st1, .error e) => (st1, .error e)
  else (st, .ok ())

/-- The `if (oldTasks.length > 0)` block (src/app.js lines 151-157). -/
def migrateTasksPhase (st : AppState) : AppState × Except JsError Unit :=
  let oldTasks := st.legacyTasks.getD []
  if oldTasks.length > 0 then
    match migrateTasksLoop oldTasks st with
    | (st1, .ok ()) => ({ st1 with legacyTasks := none }, .ok ())
    | (st1, .error e) => (st1, .error e)
  else (st, .ok ())

/-- The `if (oldEvents.length > 0)` block (src/app.js lines 159-165). -/
def migrateEventsPhase (st : AppState) : AppState × Except JsError Unit :=
  let oldEvents := st.legacyEvents.getD []
  if oldEvents.length > 0 then
    match migrateEventsLoop oldEvents st with
    | (st1, .ok ()) => ({ st1 with legacyEvents := none }, .ok ())
    | (st1, .error e) => (st1, .error e)
  else (st, .ok ())

/-- Function `migrateFromLocalStorage()` from src/app.js lines 138-166: reads the
three legacy plaintext slots (an absent slot holds no records), encrypts
and inserts every record into the corresponding Dexie collection, removes
each non-empty legacy slot, and resolves with `undefined` — the function
body has no `return` statement. -/
def migrateFromLocalStorage (st : AppState) : AppState × Except JsError JsValue :=
  match migrateJournalsPhase st with
  | (st1, .error e) => (st1, .error e)
  | (st1, .ok ()) =>
    match migrateTasksPhase st1 with
    | (st2, .error e) => (st2, .error e)
    | (st2, .ok ()) =>
      match migrateEventsPhase st2 with
      | (st3, .error e) => (st3, .error e)
      | (st3, .ok ()) => (st3, .ok .undefined)

/-- Function `setupPassword(password)` from src/app.js lines 89-109: generates a
16-byte random salt, installs the derived key, persists the Credential
`{ value: SHA-256(password), salt }` in settings, migrates legacy data, and
resolves with `true`. -/
def setupPassword (password : String) (st : AppState) : AppState × Except JsError JsValue :=
  let (salt, st1) := drawRandom st
  let st2 := { st1 with encryptionKey := some (deriveKey password salt) }
  let passwordHash := sha256 (utf8Encode password)
  let st3 := { st2 with db := { st2.db with settings := some ⟨passwordHash, salt⟩ } }
  match migrateFromLocalStorage st3 with
  | (st4, .ok _) => (st4, .ok (.bool true))
  | (st4, .error e) => (st4, .error e)

/-- Function `lockApp()` from src/app.js lines 169-178: drops the key and empties the
three in-memory working sets (the DOM toggling has no modelled state). -/
def lockApp (st : AppState) : AppState :=
  { st with encryptionKey := none, journalEntries := [], tasks := [], events := [] }

/-- The decrypt-all loop shared verbatim by `renderJournalEntries`,
`renderTasks` and `renderEvents` (src/app.js lines 424-432, 520-528,
620-628): each stored record is decrypted inside `try`; a failure is logged
(`console.error`) and the record skipped, never failing the whole call. -/
def decryptLoop (key : Option CryptoKey) :
    List StoredRecord → List JsRecord × List JsError
  | [] => ([], [])
  | r :: rs =>
    let rest := decryptLoop key rs
    match decryptData key r.enc with
    | .ok v => (v :: rest.1, rest.2)
    | .error e => (rest.1, e :: rest.2)

/-- Insertion step of the modelled `Array.prototype.sort`. -/
def insertSorted (le : JsRecord → JsRecord → Bool) (x : JsRecord) :
    List JsRecord → List JsRecord
  | [] => [x]
  | y :: ys => if le x y then x :: y :: ys else y :: insertSorted le x ys

/-- Model of `Array.prototype.sort(comparator)`: a sort—the claims about the
renderers only use that the output is a permutation of the input. -/
def jsSort (le : JsRecord → JsRecord → Bool) : List JsRecord → List JsRecord
  | [] => []
  | x :: xs => insertSorted le x (jsSort le xs)

/-- Comparator of `renderJournalEntries`: newest first by the `date` field. -/
def journalCompare (a b : JsRecord) : Bool :=
  decide (jsDateValue (fieldOf b "date") ≤ jsDateValue (fieldOf a "date"))

/-- Comparator of `renderEvents`: ascending by the `dateTime` field. -/
def eventCompare (a b : JsRecord) : Bool :=
  decide (jsDateValue (fieldOf a "dateTime") ≤ jsDateValue (fieldOf b "dateTime"))

/-- Function `renderJournalEntries()` (src/app.js lines 411-457), restricted to its
state effect: decrypt every stored journal record (skipping failures), sort
newest first, and replace the in-memory working set.  Returns the new
working set and the error log. -/
def renderJournalEntries (key : Option CryptoKey) (stored : List StoredRecord) :
    List JsRecord × List JsError :=
  let (entries, errs) := decryptLoop key stored
  (jsSort journalCompare entries, errs)

/-- Function `renderTasks()` (src/app.js lines 508-538): decrypt every stored task,
skipping failures; no sort. -/
def renderTasks (key : Option CryptoKey) (stored : List StoredRecord) :
    List JsRecord × List JsError :=
  decryptLoop key stored

/-- Function `renderEvents()` (src/app.js lines 608-656): decrypt every stored event,
skipping failures, then sort ascending by date. -/
def renderEvents (key : Option CryptoKey) (stored : List StoredRecord) :
    List JsRecord × List JsError :=
  let (evs, errs) := decryptLoop key stored
  (jsSort eventCompare evs, errs)

/-- The strict-equality id test comparing decrypted id with the requested id used by the mutation
scans; `id` arrives as a number from the rendered `onclick` attribute. -/
def recIdMatches (v : JsRecord) (id : Int) : Bool :=
  decide (fieldOf v "id" = some (.num id))

/-- The scan shared by `deleteJournalEntry`, `toggleTask`, `deleteTask` and
`deleteEvent` (src/app.js lines 462-469, 541-551, 558-565, 660-667): walk
the collection in storage order, `await decryptData` on each record — with
no `try`/`catch`, so a failure aborts the whole operation — and stop at the
first record whose decrypted `id` matches. -/
def scanFind (key : Option CryptoKey) (id : Int) :
    List StoredRecord → Except JsError (Option (Nat × JsRecord))
  | [] => .ok none
  | r :: rs =>
    match decryptData key r.enc with
    | .error e => .error e
    | .ok v => if recIdMatches v id then .ok (some (r.sid, v)) else scanFind key id rs

/-- Function `deleteJournalEntry(id)` (src/app.js lines 459-474), confirmed branch:
scan journals, delete the matching stored record, re-render. -/
def deleteJournalEntry (id : Int) (st : AppState) : AppState × Except JsError Unit :=
  match scanFind st.encryptionKey id st.db.journals with
  | .error e => (st, .error e)
  | .ok found =>
    let db1 :=
      match found with
      | some (sid, _) =>
        { st.db with journals := st.db.journals.filter (fun r => decide (r.sid ≠ sid)) }
      | none => st.db
    let rendered := renderJournalEntries st.encryptionKey db1.journals
    ({ st with db := db1, journalEntries := rendered.1 }, .ok ())

/-- Function `toggleTask(id)` (src/app.js lines 540-554): scan tasks, flip the
`completed` flag of the match, re-encrypt it with a fresh random iv, write
it back under the same storage id, re-render. -/
def toggleTask (id : Int) (st : AppState) : AppState × Except JsError Unit :=
  match scanFind st.encryptionKey id st.db.tasks with
  | .error e => (st, .error e)
  | .ok none =>
    let rendered := renderTasks st.encryptionKey st.db.tasks
    ({ st with tasks := rendered.1 }, .ok ())
  | .ok (some (sid, v)) =>
    let toggled := setField v "completed" (.bool (! jsTruthy (fieldOf v "completed")))
    let (iv, st1) := drawRandom st
    match encryptData st1.encryptionKey iv toggled with
    | .error e => (st1, .error e)
    | .ok enc =>
      let db1 := { st1.db with
        tasks := st1.db.tasks.map (fun r => if r.sid = sid then ⟨r.sid, enc⟩ else r) }
      let rendered := renderTasks st1.encryptionKey db1.tasks
      ({ st1 with db := db1, tasks := rendered.1 }, .ok ())

/-- Function `deleteTask(id)` (src/app.js lines 556-568), confirmed branch. -/
def deleteTask (id : Int) (st : AppState) : AppState × Except JsError Unit :=
  match scanFind st.encryptionKey id st.db.tasks with
  | .error e => (st, .error e)
  | .ok found =>
    let db1 :=
      match found with
      | some (sid, _) =>
        { st.db with tasks := st.db.tasks.filter (fun r => decide (r.sid ≠ sid)) }
      | none => st.db
    let rendered := renderTasks st.encryptionKey db1.tasks
    ({ st with db := db1, tasks := rendered.1 }, .ok ())

/-- Function `deleteEvent(id)` (src/app.js lines 658-676), confirmed branch: scan
events, delete the match, then unconditionally clear the two notification
flags `notified_` and `event_notified_` keys for the id, then re-render. -/
def deleteEvent (id : Int) (st : AppState) : AppState × Except JsError Unit :=
  match scanFind st.encryptionKey id st.db.events with
  | .error e => (st, .error e)
  | .ok found =>
    let db1 :=
      match found with
      | some (sid, _) =>
        { st.db with events := st.db.events.filter (fun r => decide (r.sid ≠ sid)) }
      | none => st.db
    let ls1 := lsRemove (lsRemove st.localStorageFlags
      ("notified_" ++ toString id)) ("event_notified_" ++ toString id)
    let rendered := renderEvents st.encryptionKey db1.events
    ({ st with db := db1, localStorageFlags := ls1, events := rendered.1 }, .ok ())

/-- The reminder events produced by `showNotification` calls, tagged with
enough of the message to distinguish the four kinds. -/
inductive Notification where
  | welcome : Notification
  | journalReminder (days : Int) : Notification
  | startingNow (idStr : String) : Notification
  | upcoming (idStr : String) (minutes : Int) : Notification
deriving DecidableEq, Repr

/-- Function `checkJournalReminder()` (src/app.js lines 695-711): when
`lastJournalDate` differs from the current date string, compute
`Math.floor((now - lastDate) / day)`; `null` last date gives the welcome
message, a positive day count gives the reminder naming it, and any other
count emits nothing. -/
def checkJournalReminder (now : Int) (st : AppState) : List Notification :=
  let today := toDateString now
  if st.lastJournalDate ≠ today then
    if st.lastJournalDate = "" then [.welcome]
    else
      let lastDate := jsParseDate st.lastJournalDate
      let daysSinceLastEntry := (now - lastDate).fdiv dayMs
      if daysSinceLastEntry > 0 then [.journalReminder daysSinceLastEntry] else []
  else []

/-- One iteration of the `events.forEach` body of `checkEventReminders()`
(src/app.js lines 718-759), threading the localStorage flag store. -/
def processEvent (now : Int) (ev : JsRecord) (ls : List (String × String)) :
    List (String × String) × List Notification :=
  let idStr := jsPrimToString (fieldOf ev "id")
  let eventDate := jsDateValue (fieldOf ev "dateTime")
  let timeUntilEvent := eventDate - now
  let lastNotified := lsGet ls ("notified_" ++ idStr)
  if timeUntilEvent.natAbs ≤ 2 * 60 * 1000 then
    let eventNotified := lsGet ls ("event_notified_" ++ idStr)
    if strTruthy eventNotified then (ls, [])
    else
      (lsSet ls ("event_notified_" ++ idStr) (toIsoString now), [.startingNow idStr])
  else if 0 < timeUntilEvent ∧ timeUntilEvent ≤ 60 * 60 * 1000 then
    let minutesUntil := timeUntilEvent.fdiv (1000 * 60)
    if ¬ strTruthy lastNotified
        ∨ now - jsParseDate (lastNotified.getD "") > 30 * 60 * 1000 then
      (lsSet ls ("notified_" ++ idStr) (toIsoString now), [.upcoming idStr minutesUntil])
    else (ls, [])
  else (ls, [])

/-- The `events.forEach` loop of `checkEventReminders()`. -/
def processEvents (now : Int) :
    List JsRecord → List (String × String) → List (String × String) × List Notification
  | [], ls => (ls, [])
  | ev :: evs, ls =>
    let (ls1, ns1) := processEvent now ev ls
    let (ls2, ns2) := processEvents now evs ls1
    (ls2, ns1 ++ ns2)

/-- Function `checkEventReminders()` (src/app.js lines 713-760): iterate over the
in-memory events working set, firing and recording notifications. -/
def checkEventReminders (now : Int) (st : AppState) : AppState × List Notification :=
  let (ls, ns) := processEvents now st.events st.localStorageFlags
  ({ st with localStorageFlags := ls }, ns)

/-- A sequence of `checkEventReminders` ticks at the given clock readings,
collecting every notification fired. -/
def runReminderTicks : List Int → AppState → AppState × List Notification
  | [], st => (st, [])
  | t :: ts, st =>
    let (st1, ns1) := checkEventReminders t st
    let (st2, ns2) := runReminderTicks ts st1
    (st2, ns1 ++ ns2)

/-- Number of "event starting now" notifications for one logical id string. -/
def countStartingNow (s : String) (ns : List Notification) : Nat :=
  ns.countP (fun n => decide (n = .startingNow s))

/-- Outcome of the setup-button click handler: which `alert` fired, or
success. -/
inductive SetupResult where
  | alertTooShort : SetupResult
  | alertMismatch : SetupResult
  | success : SetupResult
deriving DecidableEq, Repr

/-- The working-set refresh `initApp()` performs after a successful setup or
unlock (src/app.js lines 770-774); the timer registrations carry no state. -/
def initAppRender (st : AppState) : AppState :=
  { st with
    journalEntries := (renderJournalEntries st.encryptionKey st.db.journals).1,
    tasks := (renderTasks st.encryptionKey st.db.tasks).1,
    events := (renderEvents st.encryptionKey st.db.events).1 }

/-- The `setup-btn` click handler (src/app.js lines 181-199): validate the
password (empty or short password first, then confirm mismatch) before
touching any store, then run `setupPassword` and re-render. -/
def setupBtnHandler (password confirm : String) (st : AppState) :
    AppState × SetupResult :=
  if password = "" ∨ password.length < 6 then (st, .alertTooShort)
  else if password ≠ confirm then (st, .alertMismatch)
  else
    match setupPassword password st with
    | (st1, _) => (initAppRender st1, .success)

/-- A minimal concrete application state used to instantiate the claim
theorems on explicit inputs. -/
def emptyState : AppState :=
  { db := { journals := [], tasks := [], events := [],
            nextJournalId := 1, nextTaskId := 1, nextEventId := 1,
            settings := none },
    encryptionKey := none,
    journalEntries := [], tasks := [], events := [],
    lastJournalDate := "",
    legacyJournals := none, legacyTasks := none, legacyEvents := none,
    localStorageFlags := [], ivSupply := [] }

/-- A concrete key and a concrete 12-byte iv for witness instantiations. -/
def demoKey : CryptoKey := [1, 2, 3]

def demoIv : List Nat := List.replicate 12 0

def demoRecord : JsRecord := [("id", JsPrim.num 5), ("title", JsPrim.str "a")]

/-- A stored record whose ciphertext is too short to carry a tag: its
decryption always fails. -/
def badStored : StoredRecord := ⟨1, ⟨demoIv, [1, 2, 3]⟩⟩

/-- A concrete unlocked state whose three collections each hold one
undecryptable record. -/
def stateWithBad : AppState :=
  { emptyState with
    encryptionKey := some demoKey,
    db := { emptyState.db with
      journals := [badStored], tasks := [badStored], events := [badStored] } }

/-- A concrete unlocked state with exactly one legacy plaintext journal
record awaiting migration. -/
def stLegacy : AppState :=
  { emptyState with
    encryptionKey := some demoKey,
    legacyJournals := some [demoRecord] }

/-- The state `setupPassword` hands to the migration step: random salt
drawn, key derived and installed, Credential persisted. -/
def postSetupState (password : String) (st : AppState) : AppState :=
  { st with
    ivSupply := st.ivSupply.tail,
    encryptionKey := some (deriveKey password
      (st.ivSupply.headD (List.replicate 12 0))),
    db := { st.db with settings := some (Credential.mk
      (sha256 (utf8Encode password))
      (st.ivSupply.headD (List.replicate 12 0))) } }

/-- A state recording that the last journal entry was written on calendar
day 5 while the clock now reads a time on calendar day 4. -/
def stClock : AppState :=
  { emptyState with lastJournalDate := toDateString (5 * dayMs) }

/-- A state whose last journal entry was written on calendar day 3. -/
def stPast : AppState :=
  { emptyState with lastJournalDate := toDateString (3 * dayMs) }

/-- A concrete decryptable calendar event with logical id 7. -/
def demoEventRecord : JsRecord :=
  [("id", JsPrim.num 7), ("dateTime", JsPrim.str "x")]

def demoEventStored : StoredRecord :=
  ⟨1, ⟨demoIv, aesGcmEncrypt demoKey demoIv (serializeRecord demoEventRecord)⟩⟩

/-- A concrete unlocked state holding that event, with both notification
markers set. -/
def stDel : AppState :=
  { emptyState with
    encryptionKey := some demoKey,
    db := { emptyState.db with events := [demoEventStored] },
    localStorageFlags := [("notified_7", "t"), ("event_notified_7", "t")] }

theorem parseNatB_natEncGo (fuel : Nat) :
    ∀ n r, n < fuel → parseNatB (natEncGo fuel n ++ r) = some (n, r) := by
  induction fuel with
  | zero => intro n r h; omega
  | succ fuel ih =>
    intro n r hn
    unfold natEncGo
    by_cases h : n < 255
    · simp only [if_pos h]
      have hne : n ≠ 255 := by omega
      simp [parseNatB, hne]
    · simp only [if_neg h]
      have hne : n % 255 ≠ 255 := by
        have := Nat.mod_lt n (y := 255) (by omega)
        omega
      have hfuel : n / 255 < fuel := by
        have := Nat.div_lt_self (n := n) (by omega) (by omega : 1 < 255)
        omega
      have hrec := ih (n / 255) r hfuel
      simp only [List.cons_append, parseNatB, if_neg hne, List.append_eq, hrec]
      have hsum : n % 255 + 255 * (n / 255) = n := by omega
      rw [hsum]

theorem parseNatB_natEnc (n : Nat) (r : List Nat) :
    parseNatB (natEnc n ++ r) = some (n, r) :=
  parseNatB_natEncGo (n + 1) n r (by omega)

theorem parseChars_encChars (cs : List Char) (r : List Nat) :
    parseChars cs.length (encChars cs ++ r) = some (cs, r) := by
  induction cs with
  | nil => simp [encChars, parseChars]
  | cons c cs ih =>
    simp only [encChars, List.length_cons, parseChars, List.append_assoc,
      parseNatB_natEnc, ih]
    rw [Char.ofNat_toNat]

theorem parseStr_encStr (s : String) (r : List Nat) :
    parseStr (encStr s ++ r) = some (s, r) := by
  have h := parseChars_encChars s.data r
  simp only [encStr, parseStr, List.append_assoc, parseNatB_natEnc, h]

theorem parsePrim_encPrim (p : JsPrim) (r : List Nat) :
    parsePrim (encPrim p ++ r) = some (p, r) := by
  cases p with
  | null => simp [encPrim, parsePrim]
  | bool b => cases b <;> simp [encPrim, parsePrim]
  | num n =>
    cases n with
    | ofNat m => simp [encPrim, parsePrim, parseNatB_natEnc]
    | negSucc m => simp [encPrim, parsePrim, parseNatB_natEnc]
  | str s => simp [encPrim, parsePrim, parseStr_encStr]

theorem parseFields_encFields (fs : JsRecord) (r : List Nat) :
    parseFields fs.length (encFields fs ++ r) = some (fs, r) := by
  induction fs with
  | nil => simp [encFields, parseFields]
  | cons f fs ih =>
    obtain ⟨k, v⟩ := f
    simp [encFields, parseFields, List.append_assoc, parseStr_encStr,
      parsePrim_encPrim, ih]

theorem deserializeRecord_serializeRecord (rec : JsRecord) :
    deserializeRecord (serializeRecord rec) = some rec := by
  have h := parseFields_encFields rec []
  simp only [List.append_nil] at h
  simp [serializeRecord, deserializeRecord, parseNatB_natEnc
    (r := encFields rec), h]

theorem applyKs_applyKs (key iv : List Nat) (n : Nat) (bs : List Nat) :
    applyKs key iv n (applyKs key iv n bs) = bs := by
  induction bs generalizing n with
  | nil => rfl
  | cons b bs ih =>
    simp only [applyKs, ih]
    have : b ^^^ ksByte key iv n ^^^ ksByte key iv n = b := by
      rw [Nat.xor_assoc, Nat.xor_self, Nat.xor_zero]
    rw [this]

theorem applyKs_length (key iv : List Nat) (n : Nat) (bs : List Nat) :
    (applyKs key iv n bs).length = bs.length := by
  induction bs generalizing n with
  | nil => rfl
  | cons b bs ih => simp [applyKs, ih]

theorem tagBytes_length (key iv pt : List Nat) :
    (tagBytes key iv pt).length = iv.length + 4 := by
  simp [tagBytes]

theorem aesGcm_roundtrip (key iv pt : List Nat) (hiv : iv.length = 12) :
    aesGcmDecrypt key iv (aesGcmEncrypt key iv pt) = some pt := by
  have hlen : (aesGcmEncrypt key iv pt).length = pt.length + 16 := by
    simp [aesGcmEncrypt, applyKs_length, tagBytes_length, hiv]
  have hbody : (aesGcmEncrypt key iv pt).take ((aesGcmEncrypt key iv pt).length - 16)
      = applyKs key iv 0 pt := by
    rw [hlen]
    simp only [Nat.add_sub_cancel, aesGcmEncrypt]
    rw [← applyKs_length key iv 0 pt, List.take_left]
  have htag : (aesGcmEncrypt key iv pt).drop ((aesGcmEncrypt key iv pt).length - 16)
      = tagBytes key iv pt := by
    rw [hlen]
    simp only [Nat.add_sub_cancel, aesGcmEncrypt]
    rw [← applyKs_length key iv 0 pt, List.drop_left]
  unfold aesGcmDecrypt
  rw [if_neg (by omega)]
  simp [hbody, htag, applyKs_applyKs]

theorem encryptData_decryptData (key : CryptoKey) (iv : List Nat)
    (data : JsRecord) (hiv : iv.length = 12) :
    (encryptData (some key) iv data).bind (decryptData (some key)) = .ok data := by
  simp [encryptData, decryptData, Except.bind, aesGcm_roundtrip key iv _ hiv,
    deserializeRecord_serializeRecord]

theorem map_add_mod_inj (d : Nat) :
    ∀ l1 l2 : List Nat, (∀ b ∈ l1, b < 256) → (∀ b ∈ l2, b < 256) →
    l1.map (fun b => (b + d) % 256) = l2.map (fun b => (b + d) % 256) → l1 = l2 := by
  intro l1
  induction l1 with
  | nil =>
    intro l2 _ _ h
    cases l2 with
    | nil => rfl
    | cons b bs => simp at h
  | cons a l1 ih =>
    intro l2 h1 h2 h
    cases l2 with
    | nil => simp at h
    | cons b l2 =>
      simp only [List.map_cons, List.cons.injEq] at h
      have ha : a < 256 := h1 a (by simp)
      have hb : b < 256 := h2 b (by simp)
      have hab : a = b := by
        have := h.1
        have h1m : (a + d) % 256 = (b + d) % 256 := this
        omega
      have := ih l2 (fun x hx => h1 x (by simp [hx])) (fun x hx => h2 x (by simp [hx])) h.2
      rw [hab, this]

theorem tagBytes_iv_inj (key pt iv1 iv2 : List Nat)
    (h1 : ∀ b ∈ iv1, b < 256) (h2 : ∀ b ∈ iv2, b < 256)
    (hne : iv1 ≠ iv2) (hlen : iv1.length = iv2.length) :
    tagBytes key iv1 pt ≠ tagBytes key iv2 pt := by
  intro h
  unfold tagBytes at h
  have := (List.append_inj h (by simp [hlen])).1
  exact hne (map_add_mod_inj _ iv1 iv2 h1 h2 this)

theorem aesGcmEncrypt_iv_inj (key pt iv1 iv2 : List Nat)
    (h1 : ∀ b ∈ iv1, b < 256) (h2 : ∀ b ∈ iv2, b < 256)
    (hne : iv1 ≠ iv2) (hlen : iv1.length = iv2.length) :
    aesGcmEncrypt key iv1 pt ≠ aesGcmEncrypt key iv2 pt := by
  intro h
  unfold aesGcmEncrypt at h
  have := (List.append_inj h (by rw [applyKs_length, applyKs_length])).2
  exact tagBytes_iv_inj key pt iv1 iv2 h1 h2 hne hlen this

theorem lsGet_lsSet_same (ls : List (String × String)) (k v : String) :
    lsGet (lsSet ls k v) k = some v := by
  simp [lsGet, lsSet]

theorem lsGet_lsRemove_same (ls : List (String × String)) (k : String) :
    lsGet (lsRemove ls k) k = none := by
  induction ls with
  | nil => rfl
  | cons p ps ih =>
    by_cases h : p.1 = k
    · simpa [lsRemove, h] using ih
    · simpa [lsRemove, lsGet, h] using ih

theorem lsGet_lsRemove_other (ls : List (String × String)) (k k' : String)
    (h : k' ≠ k) : lsGet (lsRemove ls k) k' = lsGet ls k' := by
  induction ls with
  | nil => rfl
  | cons p ps ih =>
    by_cases hp : p.1 = k
    · have hp' : ¬ p.1 = k' := by rw [hp]; exact fun hh => h hh.symm
      show lsGet (if p.1 = k then lsRemove ps k else p :: lsRemove ps k) k'
        = if p.1 = k' then some p.2 else lsGet ps k'
      rw [if_pos hp, if_neg hp']
      exact ih
    · show lsGet (if p.1 = k then lsRemove ps k else p :: lsRemove ps k) k'
        = if p.1 = k' then some p.2 else lsGet ps k'
      rw [if_neg hp]
      by_cases hp' : p.1 = k'
      · simp [lsGet, hp']
      · simp [lsGet, hp', ih]

theorem lsGet_lsSet_other (ls : List (String × String)) (k k' v : String)
    (h : k' ≠ k) : lsGet (lsSet ls k v) k' = lsGet ls k' := by
  have hk : ¬ (k = k') := fun hh => h hh.symm
  simp only [lsSet, lsGet, hk, if_false]
  exact lsGet_lsRemove_other ls k k' h

theorem natEncGo_lt_256 (fuel : Nat) :
    ∀ n, n < fuel → ∀ b ∈ natEncGo fuel n, b < 256 := by
  induction fuel with
  | zero => intro n h; omega
  | succ fuel ih =>
    intro n hn
    unfold natEncGo
    by_cases h : n < 255
    · simp only [if_pos h]
      intro b hb
      simp only [List.mem_cons, List.not_mem_nil, or_false] at hb
      rcases hb with rfl | rfl <;> omega
    · simp only [if_neg h]
      intro b hb
      simp only [List.mem_cons] at hb
      rcases hb with rfl | hb
      · have := Nat.mod_lt n (y := 255) (by omega)
        omega
      · have hfuel : n / 255 < fuel := by
          have := Nat.div_lt_self (n := n) (by omega) (by omega : 1 < 255)
          omega
        exact ih (n / 255) hfuel b hb

theorem natEnc_lt_256 (n : Nat) : ∀ b ∈ natEnc n, b < 256 :=
  natEncGo_lt_256 (n + 1) n (by omega)

theorem map_toNat_ofNat_natEnc (m : Nat) :
    List.map (Char.toNat ∘ Char.ofNat) (natEnc m) = natEnc m := by
  have : ∀ b ∈ natEnc m, (Char.toNat ∘ Char.ofNat) b = id b := by
    intro b hb
    have hlt : b < 256 := natEnc_lt_256 m b hb
    have hv : b.isValidChar := Or.inl (by omega)
    simp only [Function.comp_apply, id_eq]
    unfold Char.ofNat
    rw [dif_pos hv]
    rfl
  rw [List.map_congr_left this, List.map_id]

theorem parseIntChars_intChars (n : Int) : parseIntChars (intChars n) = n := by
  cases n with
  | ofNat m =>
    have h := parseNatB_natEnc m []
    simp only [List.append_nil] at h
    simp only [intChars, parseIntChars, List.map_map, map_toNat_ofNat_natEnc, h]
  | negSucc m =>
    have h := parseNatB_natEnc m []
    simp only [List.append_nil] at h
    simp only [intChars, parseIntChars, List.map_map, map_toNat_ofNat_natEnc, h]

theorem jsParseDate_toDateString (t : Int) :
    jsParseDate (toDateString t) = dayIndex t * dayMs := by
  simp [toDateString, jsParseDate, parseIntChars_intChars]

theorem jsParseDate_toIsoString (t : Int) : jsParseDate (toIsoString t) = t := by
  simp [toIsoString, jsParseDate, parseIntChars_intChars]

theorem toIsoString_ne_empty (t : Int) : toIsoString t ≠ "" := by
  intro h
  have hd : (toIsoString t).data = ([] : List Char) := by rw [h]
  simp [toIsoString] at hd

theorem compareHashes_eq_true_iff (a b : List Nat) :
    compareHashes a b = true ↔ a = b := by
  induction a generalizing b with
  | nil => cases b <;> simp [compareHashes]
  | cons x xs ih =>
    cases b with
    | nil => simp [compareHashes]
    | cons y ys =>
      by_cases h : x = y
      · simp [compareHashes, h, ih]
      · simp [compareHashes, h]

theorem insertSorted_perm (le : JsRecord → JsRecord → Bool) (x : JsRecord)
    (l : List JsRecord) : (insertSorted le x l).Perm (x :: l) := by
  induction l with
  | nil => exact List.Perm.refl _
  | cons y ys ih =>
    by_cases h : le x y
    · simp [insertSorted, h]
    · simp only [insertSorted, if_neg h]
      exact ((ih.cons y).trans (List.Perm.swap x y ys))

theorem jsSort_perm (le : JsRecord → JsRecord → Bool) (l : List JsRecord) :
    (jsSort le l).Perm l := by
  induction l with
  | nil => exact List.Perm.refl _
  | cons x xs ih =>
    exact (insertSorted_perm le x (jsSort le xs)).trans (ih.cons x)

/-- Claim C1: for every JSON-serializable record and live key, decrypting the
result of encrypting the record returns a value equal to the record:
`decryptData(encryptData(R)) == R`, for any 12-byte iv the random source
produces for the call. -/
theorem claim_C1_roundtrip (key : CryptoKey) (iv : List Nat) (record : JsRecord)
    (hiv : iv.length = 12) :
    (encryptData (some key) iv record).bind (decryptData (some key))
      = .ok record :=
  encryptData_decryptData key iv record hiv

/-- Claim C1 witness: the round trip evaluated at a concrete key, iv and record. -/
theorem claim_C1_roundtrip_witness :
    demoIv.length = 12 ∧
    (encryptData (some demoKey) demoIv demoRecord).bind (decryptData (some demoKey))
      = .ok demoRecord :=
  ⟨by decide, claim_C1_roundtrip demoKey demoIv demoRecord (by decide)⟩

/-- Claim C2: for every stored Credential and password whose SHA-256 digest differs
from the stored verifier hash, `unlockWithPassword` returns `false`, leaves
the whole state — in particular the absent in-memory key and the stored
Credential — unchanged. -/
theorem claim_C2_wrong_password (st : AppState) (cred : Credential)
    (password : String) (hcred : st.db.settings = some cred)
    (hne : sha256 (utf8Encode password) ≠ cred.value) :
    unlockWithPassword password st = (false, st) ∧
    (unlockWithPassword password st).2.encryptionKey = st.encryptionKey ∧
    (unlockWithPassword password st).2.db.settings = st.db.settings := by
  have hcmp : compareHashes (sha256 (utf8Encode password)) cred.value = false := by
    rw [Bool.eq_false_iff]
    intro h
    exact hne ((compareHashes_eq_true_iff _ _).mp h)
  have hmain : unlockWithPassword password st = (false, st) := by
    unfold unlockWithPassword
    rw [hcred]
    simp [hcmp]
  exact ⟨hmain, by rw [hmain], by rw [hmain]⟩

/-- Claim C2 witness: a concrete locked state whose stored verifier is the digest
of a different password. -/
theorem claim_C2_wrong_password_witness :
    unlockWithPassword "x"
      { emptyState with db := { emptyState.db with
          settings := some ⟨sha256 (utf8Encode "other"), List.replicate 16 7⟩ } }
      = (false,
        { emptyState with db := { emptyState.db with
            settings := some ⟨sha256 (utf8Encode "other"), List.replicate 16 7⟩ } }) :=
  (claim_C2_wrong_password _ _ "x" rfl (by decide)).1

/-- Claim C3: for every record and live key, two `encryptData` calls whose random
draws are distinct 12-byte values produce EncryptedRecords with different
`iv` fields and different ciphertexts, and the `iv` field of each record is exactly the
fresh draw of its own call. -/
theorem claim_C3_fresh_iv (key : CryptoKey) (record : JsRecord)
    (iv1 iv2 : List Nat) (h1 : iv1.length = 12) (h2 : iv2.length = 12)
    (hb1 : ∀ b ∈ iv1, b < 256) (hb2 : ∀ b ∈ iv2, b < 256) (hne : iv1 ≠ iv2) :
    ∃ e1 e2, encryptData (some key) iv1 record = .ok e1 ∧
      encryptData (some key) iv2 record = .ok e2 ∧
      e1.iv = iv1 ∧ e2.iv = iv2 ∧ e1.iv ≠ e2.iv ∧ e1.data ≠ e2.data := by
  refine ⟨_, _, rfl, rfl, rfl, rfl, hne, ?_⟩
  exact aesGcmEncrypt_iv_inj key (serializeRecord record) iv1 iv2 hb1 hb2 hne
    (h1.trans h2.symm)

/-- Claim C3 witness: two concrete distinct 12-byte draws. -/
theorem claim_C3_fresh_iv_witness :
    ∃ e1 e2, encryptData (some demoKey) demoIv demoRecord = .ok e1 ∧
      encryptData (some demoKey) (List.replicate 11 0 ++ [1]) demoRecord = .ok e2 ∧
      e1.iv = demoIv ∧ e2.iv = List.replicate 11 0 ++ [1] ∧
      e1.iv ≠ e2.iv ∧ e1.data ≠ e2.data :=
  claim_C3_fresh_iv demoKey demoRecord demoIv (List.replicate 11 0 ++ [1])
    (by decide) (by decide) (by decide) (by decide) (by decide)

/-- Claim C4: in every state, after `lockApp()` the in-memory key is absent and the
three decrypted working sets are empty. -/
theorem claim_C4_lock_clears (st : AppState) :
    (lockApp st).encryptionKey = none ∧ (lockApp st).journalEntries = [] ∧
    (lockApp st).tasks = [] ∧ (lockApp st).events = [] :=
  ⟨rfl, rfl, rfl, rfl⟩

theorem decryptLoop_fst (key : Option CryptoKey) (stored : List StoredRecord) :
    (decryptLoop key stored).1
      = stored.filterMap (fun r => (decryptData key r.enc).toOption) := by
  induction stored with
  | nil => rfl
  | cons r rs ih =>
    cases hd : decryptData key r.enc with
    | ok v => simp [decryptLoop, hd, ih, Except.toOption]
    | error e => simp [decryptLoop, hd, ih, Except.toOption]

theorem decryptLoop_snd (key : Option CryptoKey) (stored : List StoredRecord) :
    (decryptLoop key stored).2.length
      = stored.countP (fun r => !(decryptData key r.enc).toOption.isSome) := by
  induction stored with
  | nil => rfl
  | cons r rs ih =>
    cases hd : decryptData key r.enc with
    | ok v => simp [decryptLoop, hd, ih, Except.toOption, List.countP_cons]
    | error e => simp [decryptLoop, hd, ih, Except.toOption, List.countP_cons]

/-- Claim C5: for every stored collection state and key, the bulk reads performed
by `renderJournalEntries`, `renderTasks` and `renderEvents` return exactly
the decryptions of the records whose decryption succeeds (up to the
sort a renderer applies), log one error per failing record, and never fail as a
whole — the loops are total. -/
theorem claim_C5_bulk_reads (key : Option CryptoKey) (stored : List StoredRecord) :
    (renderTasks key stored).1
      = stored.filterMap (fun r => (decryptData key r.enc).toOption) ∧
    (renderJournalEntries key stored).1.Perm
      (stored.filterMap (fun r => (decryptData key r.enc).toOption)) ∧
    (renderEvents key stored).1.Perm
      (stored.filterMap (fun r => (decryptData key r.enc).toOption)) ∧
    (renderTasks key stored).2.length
      = stored.countP (fun r => !(decryptData key r.enc).toOption.isSome) ∧
    (renderJournalEntries key stored).2.length
      = stored.countP (fun r => !(decryptData key r.enc).toOption.isSome) ∧
    (renderEvents key stored).2.length
      = stored.countP (fun r => !(decryptData key r.enc).toOption.isSome) := by
  refine ⟨decryptLoop_fst key stored, ?_, ?_, decryptLoop_snd key stored, ?_, ?_⟩
  · rw [← decryptLoop_fst key stored]
    exact jsSort_perm journalCompare (decryptLoop key stored).1
  · rw [← decryptLoop_fst key stored]
    exact jsSort_perm eventCompare (decryptLoop key stored).1
  · exact decryptLoop_snd key stored
  · exact decryptLoop_snd key stored

theorem scanFind_error_of_bad (key : Option CryptoKey) (id : Int)
    (pre : List StoredRecord) (bad : StoredRecord) (rest : List StoredRecord)
    (hpre : ∀ r ∈ pre, ∃ v, decryptData key r.enc = .ok v ∧ recIdMatches v id = false)
    (hbad : ∃ e, decryptData key bad.enc = .error e) :
    ∃ e, scanFind key id (pre ++ bad :: rest) = .error e := by
  induction pre with
  | nil =>
    obtain ⟨e, he⟩ := hbad
    exact ⟨e, by simp [scanFind, he]⟩
  | cons r pre ih =>
    obtain ⟨v, hv, hm⟩ := hpre r (by simp)
    obtain ⟨e, he⟩ := ih (fun r' hr' => hpre r' (by simp [hr']))
    exact ⟨e, by simp [scanFind, hv, hm, he]⟩

/-- Claim C10: whenever some stored record that precedes the first record matching
the requested logical id fails to decrypt, the scan-based mutations
(`toggleTask`, `deleteTask`, `deleteJournalEntry`, `deleteEvent`) propagate
the decryption error and leave the state — in particular the collection —
unchanged; unlike the bulk reads they have no per-record error handling. -/
theorem claim_C10_scan_mutations (st : AppState) (id : Int) :
    (∀ pre bad rest, st.db.tasks = pre ++ bad :: rest →
      (∀ r ∈ pre, ∃ v, decryptData st.encryptionKey r.enc = .ok v
          ∧ recIdMatches v id = false) →
      (∃ e, decryptData st.encryptionKey bad.enc = .error e) →
      (∃ e, toggleTask id st = (st, .error e)) ∧
      (∃ e, deleteTask id st = (st, .error e))) ∧
    (∀ pre bad rest, st.db.journals = pre ++ bad :: rest →
      (∀ r ∈ pre, ∃ v, decryptData st.encryptionKey r.enc = .ok v
          ∧ recIdMatches v id = false) →
      (∃ e, decryptData st.encryptionKey bad.enc = .error e) →
      ∃ e, deleteJournalEntry id st = (st, .error e)) ∧
    (∀ pre bad rest, st.db.events = pre ++ bad :: rest →
      (∀ r ∈ pre, ∃ v, decryptData st.encryptionKey r.enc = .ok v
          ∧ recIdMatches v id = false) →
      (∃ e, decryptData st.encryptionKey bad.enc = .error e) →
      ∃ e, deleteEvent id st = (st, .error e)) := by
  refine ⟨?_, ?_, ?_⟩
  · intro pre bad rest hsplit hpre hbad
    obtain ⟨e, he⟩ := scanFind_error_of_bad st.encryptionKey id pre bad rest hpre hbad
    rw [← hsplit] at he
    constructor
    · exact ⟨e, by simp [toggleTask, he]⟩
    · exact ⟨e, by simp [deleteTask, he]⟩
  · intro pre bad rest hsplit hpre hbad
    obtain ⟨e, he⟩ := scanFind_error_of_bad st.encryptionKey id pre bad rest hpre hbad
    rw [← hsplit] at he
    exact ⟨e, by simp [deleteJournalEntry, he]⟩
  · intro pre bad rest hsplit hpre hbad
    obtain ⟨e, he⟩ := scanFind_error_of_bad st.encryptionKey id pre bad rest hpre hbad
    rw [← hsplit] at he
    exact ⟨e, by simp [deleteEvent, he]⟩

/-- Claim C10 witness: all four scans abort on the concrete corrupt state. -/
theorem claim_C10_scan_mutations_witness :
    ((∃ e, toggleTask 5 stateWithBad = (stateWithBad, .error e)) ∧
     (∃ e, deleteTask 5 stateWithBad = (stateWithBad, .error e))) ∧
    (∃ e, deleteJournalEntry 5 stateWithBad = (stateWithBad, .error e)) ∧
    (∃ e, deleteEvent 5 stateWithBad = (stateWithBad, .error e)) :=
  ⟨(claim_C10_scan_mutations stateWithBad 5).1 [] badStored [] rfl
      (by intro r hr; simp at hr) ⟨.decryptionFailed, by rfl⟩,
   (claim_C10_scan_mutations stateWithBad 5).2.1 [] badStored [] rfl
      (by intro r hr; simp at hr) ⟨.decryptionFailed, by rfl⟩,
   (claim_C10_scan_mutations stateWithBad 5).2.2 [] badStored [] rfl
      (by intro r hr; simp at hr) ⟨.decryptionFailed, by rfl⟩⟩

theorem migrateJournalsLoop_spec (k : CryptoKey) (recs : List JsRecord) :
    ∀ st : AppState, st.encryptionKey = some k →
    ∃ st', migrateJournalsLoop recs st = (st', .ok ()) ∧
      st'.db.journals.length = st.db.journals.length + recs.length ∧
      st'.db.tasks = st.db.tasks ∧ st'.db.events = st.db.events ∧
      st'.db.settings = st.db.settings ∧
      st'.encryptionKey = st.encryptionKey ∧
      st'.legacyJournals = st.legacyJournals ∧
      st'.legacyTasks = st.legacyTasks ∧
      st'.legacyEvents = st.legacyEvents := by
  induction recs with
  | nil =>
    intro st _
    exact ⟨st, rfl, by simp [migrateJournalsLoop], rfl, rfl, rfl, rfl, rfl, rfl, rfl⟩
  | cons r rs ih =>
    intro st hk
    obtain ⟨db, ekey, je, tks, evs, ljd, lj, lt, le, ls, sup⟩ := st
    replace hk : ekey = some k := hk
    subst hk
    have hstep : migrateJournalsLoop (r :: rs)
        ⟨db, some k, je, tks, evs, ljd, lj, lt, le, ls, sup⟩ =
        migrateJournalsLoop rs
          ⟨{ db with
              journals := db.journals ++
                [⟨db.nextJournalId,
                  ⟨sup.headD (List.replicate 12 0),
                   aesGcmEncrypt k (sup.headD (List.replicate 12 0))
                     (serializeRecord r)⟩⟩],
              nextJournalId := db.nextJournalId + 1 },
            some k, je, tks, evs, ljd, lj, lt, le, ls, sup.tail⟩ := rfl
    obtain ⟨st', h1, h2, h3, h4, h5, h6, h7, h8, h9⟩ :=
      ih ⟨{ db with
              journals := db.journals ++
                [⟨db.nextJournalId,
                  ⟨sup.headD (List.replicate 12 0),
                   aesGcmEncrypt k (sup.headD (List.replicate 12 0))
                     (serializeRecord r)⟩⟩],
              nextJournalId := db.nextJournalId + 1 },
            some k, je, tks, evs, ljd, lj, lt, le, ls, sup.tail⟩ rfl
    rw [hstep]
    refine ⟨st', h1, ?_, h3, h4, h5, h6, h7, h8, h9⟩
    rw [h2]
    simp
    omega

theorem migrateTasksLoop_spec (k : CryptoKey) (recs : List JsRecord) :
    ∀ st : AppState, st.encryptionKey = some k →
    ∃ st', migrateTasksLoop recs st = (st', .ok ()) ∧
      st'.db.tasks.length = st.db.tasks.length + recs.length ∧
      st'.db.journals = st.db.journals ∧ st'.db.events = st.db.events ∧
      st'.db.settings = st.db.settings ∧
      st'.encryptionKey = st.encryptionKey ∧
      st'.legacyJournals = st.legacyJournals ∧
      st'.legacyTasks = st.legacyTasks ∧
      st'.legacyEvents = st.legacyEvents := by
  induction recs with
  | nil =>
    intro st _
    exact ⟨st, rfl, by simp [migrateTasksLoop], rfl, rfl, rfl, rfl, rfl, rfl, rfl⟩
  | cons r rs ih =>
    intro st hk
    obtain ⟨db, ekey, je, tks, evs, ljd, lj, lt, le, ls, sup⟩ := st
    replace hk : ekey = some k := hk
    subst hk
    have hstep : migrateTasksLoop (r :: rs)
        ⟨db, some k, je, tks, evs, ljd, lj, lt, le, ls, sup⟩ =
        migrateTasksLoop rs
          ⟨{ db with
              tasks := db.tasks ++
                [⟨db.nextTaskId,
                  ⟨sup.headD (List.replicate 12 0),
                   aesGcmEncrypt k (sup.headD (List.replicate 12 0))
                     (serializeRecord r)⟩⟩],
              nextTaskId := db.nextTaskId + 1 },
            some k, je, tks, evs, ljd, lj, lt, le, ls, sup.tail⟩ := rfl
    obtain ⟨st', h1, h2, h3, h4, h5, h6, h7, h8, h9⟩ :=
      ih ⟨{ db with
              tasks := db.tasks ++
                [⟨db.nextTaskId,
                  ⟨sup.headD (List.replicate 12 0),
                   aesGcmEncrypt k (sup.headD (List.replicate 12 0))
                     (serializeRecord r)⟩⟩],
              nextTaskId := db.nextTaskId + 1 },
            some k, je, tks, evs, ljd, lj, lt, le, ls, sup.tail⟩ rfl
    rw [hstep]
    refine ⟨st', h1, ?_, h3, h4, h5, h6, h7, h8, h9⟩
    rw [h2]
    simp
    omega

theorem migrateEventsLoop_spec (k : CryptoKey) (recs : List JsRecord) :
    ∀ st : AppState, st.encryptionKey = some k →
    ∃ st', migrateEventsLoop recs st = (st', .ok ()) ∧
      st'.db.events.length = st.db.events.length + recs.length ∧
      st'.db.journals = st.db.journals ∧ st'.db.tasks = st.db.tasks ∧
      st'.db.settings = st.db.settings ∧
      st'.encryptionKey = st.encryptionKey ∧
      st'.legacyJournals = st.legacyJournals ∧
      st'.legacyTasks = st.legacyTasks ∧
      st'.legacyEvents = st.legacyEvents := by
  induction recs with
  | nil =>
    intro st _
    exact ⟨st, rfl, by simp [migrateEventsLoop], rfl, rfl, rfl, rfl, rfl, rfl, rfl⟩
  | cons r rs ih =>
    intro st hk
    obtain ⟨db, ekey, je, tks, evs, ljd, lj, lt, le, ls, sup⟩ := st
    replace hk : ekey = some k := hk
    subst hk
    have hstep : migrateEventsLoop (r :: rs)
        ⟨db, some k, je, tks, evs, ljd, lj, lt, le, ls, sup⟩ =
        migrateEventsLoop rs
          ⟨{ db with
              events := db.events ++
                [⟨db.nextEventId,
                  ⟨sup.headD (List.replicate 12 0),
                   aesGcmEncrypt k (sup.headD (List.replicate 12 0))
                     (serializeRecord r)⟩⟩],
              nextEventId := db.nextEventId + 1 },
            some k, je, tks, evs, ljd, lj, lt, le, ls, sup.tail⟩ := rfl
    obtain ⟨st', h1, h2, h3, h4, h5, h6, h7, h8, h9⟩ :=
      ih ⟨{ db with
              events := db.events ++
                [⟨db.nextEventId,
                  ⟨sup.headD (List.replicate 12 0),
                   aesGcmEncrypt k (sup.headD (List.replicate 12 0))
                     (serializeRecord r)⟩⟩],
              nextEventId := db.nextEventId + 1 },
            some k, je, tks, evs, ljd, lj, lt, le, ls, sup.tail⟩ rfl
    rw [hstep]
    refine ⟨st', h1, ?_, h3, h4, h5, h6, h7, h8, h9⟩
    rw [h2]
    simp
    omega

theorem migrateJournalsPhase_spec (st : AppState) (k : CryptoKey)
    (hk : st.encryptionKey = some k) :
    ∃ st1, migrateJournalsPhase st = (st1, .ok ()) ∧
      st1.db.journals.length
        = st.db.journals.length + (st.legacyJournals.getD []).length ∧
      st1.db.tasks = st.db.tasks ∧ st1.db.events = st.db.events ∧
      st1.db.settings = st.db.settings ∧
      st1.encryptionKey = st.encryptionKey ∧
      st1.legacyJournals
        = (if st.legacyJournals.getD [] = [] then st.legacyJournals else none) ∧
      st1.legacyTasks = st.legacyTasks ∧ st1.legacyEvents = st.legacyEvents ∧
      (st.legacyJournals.getD [] = [] → st1 = st) := by
  by_cases hJ : (st.legacyJournals.getD []).length > 0
  · obtain ⟨st', hL, hlen, ht, he, hs, hkk, hlj, hlt, hle⟩ :=
      migrateJournalsLoop_spec k (st.legacyJournals.getD []) st hk
    have hnil : ¬ st.legacyJournals.getD [] = [] := by
      intro habs
      rw [habs] at hJ
      simp at hJ
    refine ⟨{ st' with legacyJournals := none }, ?_, hlen, ht, he, hs, hkk,
      ?_, hlt, hle, ?_⟩
    · unfold migrateJournalsPhase
      rw [if_pos hJ, hL]
    · rw [if_neg hnil]
    · intro habs
      exact absurd habs hnil
  · have hnil : st.legacyJournals.getD [] = [] := by
      rcases List.eq_nil_or_concat (st.legacyJournals.getD []) with h | ⟨l, a, h⟩
      · exact h
      · rw [h] at hJ
        simp at hJ
    refine ⟨st, ?_, by rw [hnil]; simp, rfl, rfl, rfl, rfl, ?_, rfl, rfl,
      fun _ => rfl⟩
    · unfold migrateJournalsPhase
      rw [if_neg hJ]
    · rw [if_pos hnil]

theorem migrateTasksPhase_spec (st : AppState) (k : CryptoKey)
    (hk : st.encryptionKey = some k) :
    ∃ st1, migrateTasksPhase st = (st1, .ok ()) ∧
      st1.db.tasks.length
        = st.db.tasks.length + (st.legacyTasks.getD []).length ∧
      st1.db.journals = st.db.journals ∧ st1.db.events = st.db.events ∧
      st1.db.settings = st.db.settings ∧
      st1.encryptionKey = st.encryptionKey ∧
      st1.legacyTasks
        = (if st.legacyTasks.getD [] = [] then st.legacyTasks else none) ∧
      st1.legacyJournals = st.legacyJournals ∧ st1.legacyEvents = st.legacyEvents ∧
      (st.legacyTasks.getD [] = [] → st1 = st) := by
  by_cases hT : (st.legacyTasks.getD []).length > 0
  · obtain ⟨st', hL, hlen, hj, he, hs, hkk, hlj, hlt, hle⟩ :=
      migrateTasksLoop_spec k (st.legacyTasks.getD []) st hk
    have hnil : ¬ st.legacyTasks.getD [] = [] := by
      intro habs
      rw [habs] at hT
      simp at hT
    refine ⟨{ st' with legacyTasks := none }, ?_, hlen, hj, he, hs, hkk,
      ?_, hlj, hle, ?_⟩
    · unfold migrateTasksPhase
      rw [if_pos hT, hL]
    · rw [if_neg hnil]
    · intro habs
      exact absurd habs hnil
  · have hnil : st.legacyTasks.getD [] = [] := by
      rcases List.eq_nil_or_concat (st.legacyTasks.getD []) with h | ⟨l, a, h⟩
      · exact h
      · rw [h] at hT
        simp at hT
    refine ⟨st, ?_, by rw [hnil]; simp, rfl, rfl, rfl, rfl, ?_, rfl, rfl,
      fun _ => rfl⟩
    · unfold migrateTasksPhase
      rw [if_neg hT]
    · rw [if_pos hnil]

theorem migrateEventsPhase_spec (st : AppState) (k : CryptoKey)
    (hk : st.encryptionKey = some k) :
    ∃ st1, migrateEventsPhase st = (st1, .ok ()) ∧
      st1.db.events.length
        = st.db.events.length + (st.legacyEvents.getD []).length ∧
      st1.db.journals = st.db.journals ∧ st1.db.tasks = st.db.tasks ∧
      st1.db.settings = st.db.settings ∧
      st1.encryptionKey = st.encryptionKey ∧
      st1.legacyEvents
        = (if st.legacyEvents.getD [] = [] then st.legacyEvents else none) ∧
      st1.legacyJournals = st.legacyJournals ∧ st1.legacyTasks = st.legacyTasks ∧
      (st.legacyEvents.getD [] = [] → st1 = st) := by
  by_cases hE : (st.legacyEvents.getD []).length > 0
  · obtain ⟨st', hL, hlen, hj, ht, hs, hkk, hlj, hlt, hle⟩ :=
      migrateEventsLoop_spec k (st.legacyEvents.getD []) st hk
    have hnil : ¬ st.legacyEvents.getD [] = [] := by
      intro habs
      rw [habs] at hE
      simp at hE
    refine ⟨{ st' with legacyEvents := none }, ?_, hlen, hj, ht, hs, hkk,
      ?_, hlj, hlt, ?_⟩
    · unfold migrateEventsPhase
      rw [if_pos hE, hL]
    · rw [if_neg hnil]
    · intro habs
      exact absurd habs hnil
  · have hnil : st.legacyEvents.getD [] = [] := by
      rcases List.eq_nil_or_concat (st.legacyEvents.getD []) with h | ⟨l, a, h⟩
      · exact h
      · rw [h] at hE
        simp at hE
    refine ⟨st, ?_, by rw [hnil]; simp, rfl, rfl, rfl, rfl, ?_, rfl, rfl,
      fun _ => rfl⟩
    · unfold migrateEventsPhase
      rw [if_neg hE]
    · rw [if_pos hnil]

theorem migrateFromLocalStorage_spec (st : AppState) (k : CryptoKey)
    (hk : st.encryptionKey = some k) :
    (migrateFromLocalStorage st).2 = .ok JsValue.undefined ∧
    (migrateFromLocalStorage st).1.db.journals.length
      = st.db.journals.length + (st.legacyJournals.getD []).length ∧
    (migrateFromLocalStorage st).1.db.tasks.length
      = st.db.tasks.length + (st.legacyTasks.getD []).length ∧
    (migrateFromLocalStorage st).1.db.events.length
      = st.db.events.length + (st.legacyEvents.getD []).length ∧
    (migrateFromLocalStorage st).1.legacyJournals
      = (if st.legacyJournals.getD [] = [] then st.legacyJournals else none) ∧
    (migrateFromLocalStorage st).1.legacyTasks
      = (if st.legacyTasks.getD [] = [] then st.legacyTasks else none) ∧
    (migrateFromLocalStorage st).1.legacyEvents
      = (if st.legacyEvents.getD [] = [] then st.legacyEvents else none) ∧
    (migrateFromLocalStorage st).1.db.settings = st.db.settings ∧
    (migrateFromLocalStorage st).1.encryptionKey = st.encryptionKey ∧
    ((st.legacyJournals.getD [] = [] ∧ st.legacyTasks.getD [] = []
        ∧ st.legacyEvents.getD [] = []) →
      (migrateFromLocalStorage st).1 = st) := by
  obtain ⟨st1, h1eq, h1len, h1t, h1e, h1s, h1k, h1lj, h1lt, h1le, h1id⟩ :=
    migrateJournalsPhase_spec st k hk
  obtain ⟨st2, h2eq, h2len, h2j, h2e, h2s, h2k, h2lt, h2lj, h2le, h2id⟩ :=
    migrateTasksPhase_spec st1 k (h1k.trans hk)
  obtain ⟨st3, h3eq, h3len, h3j, h3t, h3s, h3k, h3le, h3lj, h3lt, h3id⟩ :=
    migrateEventsPhase_spec st2 k (h2k.trans (h1k.trans hk))
  have hm : migrateFromLocalStorage st = (st3, .ok .undefined) := by
    simp only [migrateFromLocalStorage, h1eq, h2eq, h3eq]
  rw [hm]
  refine ⟨rfl, ?_, ?_, ?_, ?_, ?_, ?_, ?_, ?_, ?_⟩
  · rw [h3j, h2j, h1len]
  · rw [h3t, h2len, h1t, h1lt]
  · rw [h3len, h2e, h1e, h2le, h1le]
  · rw [h3lj, h2lj, h1lj]
  · rw [h3lt, h2lt, h1lt]
  · rw [h3le, h2le, h1le]
  · rw [h3s, h2s, h1s]
  · rw [h3k, h2k, h1k]
  · rintro ⟨hj0, ht0, he0⟩
    have e1 : st1 = st := h1id hj0
    have e2 : st2 = st1 := h2id (by rw [e1]; exact ht0)
    have e3 : st3 = st2 := h3id (by rw [e2, e1]; exact he0)
    rw [e3, e2, e1]

/-- Claim C6 counterexample: with one legacy record the claimed contract
`migrateLegacyPlaintext() -> count migrated` would have the call resolve
with the number 1, but `migrateFromLocalStorage` resolves with `undefined` —
its body contains no `return` statement. -/
theorem claim_C6_counterexample :
    (stLegacy.legacyJournals.getD []).length = 1 ∧
    (migrateFromLocalStorage stLegacy).2 = Except.ok JsValue.undefined ∧
    (migrateFromLocalStorage stLegacy).2 ≠ Except.ok (JsValue.num 1) := by
  refine ⟨rfl, rfl, ?_⟩
  intro h
  have hu : (migrateFromLocalStorage stLegacy).2 = Except.ok JsValue.undefined := rfl
  rw [hu] at h
  injection h with h2
  exact JsValue.noConfusion h2

/-- Claim C6 amended: `migrateFromLocalStorage` returns no count (it resolves with
`undefined`); when the legacy slots are empty it is a complete no-op; when
the legacy slots hold n plaintext records in total it inserts exactly n
encrypted records into the secure store and removes each non-empty legacy
slot. -/
theorem claim_C6_migration (st : AppState) (k : CryptoKey)
    (hk : st.encryptionKey = some k) :
    (migrateFromLocalStorage st).2 = .ok JsValue.undefined ∧
    (migrateFromLocalStorage st).1.db.journals.length
      = st.db.journals.length + (st.legacyJournals.getD []).length ∧
    (migrateFromLocalStorage st).1.db.tasks.length
      = st.db.tasks.length + (st.legacyTasks.getD []).length ∧
    (migrateFromLocalStorage st).1.db.events.length
      = st.db.events.length + (st.legacyEvents.getD []).length ∧
    (migrateFromLocalStorage st).1.legacyJournals
      = (if st.legacyJournals.getD [] = [] then st.legacyJournals else none) ∧
    (migrateFromLocalStorage st).1.legacyTasks
      = (if st.legacyTasks.getD [] = [] then st.legacyTasks else none) ∧
    (migrateFromLocalStorage st).1.legacyEvents
      = (if st.legacyEvents.getD [] = [] then st.legacyEvents else none) ∧
    ((st.legacyJournals.getD [] = [] ∧ st.legacyTasks.getD [] = []
        ∧ st.legacyEvents.getD [] = []) →
      (migrateFromLocalStorage st).1 = st) := by
  obtain ⟨h1, h2, h3, h4, h5, h6, h7, _, _, h10⟩ :=
    migrateFromLocalStorage_spec st k hk
  exact ⟨h1, h2, h3, h4, h5, h6, h7, h10⟩

/-- Claim C6 witness: the amended contract evaluated on the concrete
one-legacy-record state. -/
theorem claim_C6_migration_witness :
    (migrateFromLocalStorage stLegacy).2 = .ok JsValue.undefined ∧
    (migrateFromLocalStorage stLegacy).1.db.journals.length
      = stLegacy.db.journals.length + (stLegacy.legacyJournals.getD []).length :=
  ⟨(claim_C6_migration stLegacy demoKey rfl).1,
   (claim_C6_migration stLegacy demoKey rfl).2.1⟩

theorem setupPassword_spec (password : String) (st : AppState) :
    setupPassword password st =
      ((migrateFromLocalStorage (postSetupState password st)).1,
        .ok (.bool true)) ∧
    (migrateFromLocalStorage (postSetupState password st)).2
      = .ok JsValue.undefined := by
  obtain ⟨m1, -, -, -, -, -, -, -, -, -⟩ :=
    migrateFromLocalStorage_spec (postSetupState password st)
      (deriveKey password (st.ivSupply.headD (List.replicate 12 0))) rfl
  have hpair : migrateFromLocalStorage (postSetupState password st) =
      ((migrateFromLocalStorage (postSetupState password st)).1,
        Except.ok JsValue.undefined) := by
    rw [← m1]
  refine ⟨?_, m1⟩
  unfold setupPassword
  split
  rename_i salt st1 heq
  have h2 : (st.ivSupply.headD (List.replicate 12 0),
      { st with ivSupply := st.ivSupply.tail }) = (salt, st1) := heq
  injection h2 with ha hb
  subst ha
  subst hb
  dsimp only []
  split
  · rename_i st4 a heq2
    have heq3 : migrateFromLocalStorage (postSetupState password st)
        = (st4, Except.ok a) := heq2
    rw [hpair] at heq3
    injection heq3 with h4 h5
    rw [← h4]
  · rename_i st4 e heq2
    have heq3 : migrateFromLocalStorage (postSetupState password st)
        = (st4, Except.error e) := heq2
    rw [hpair] at heq3
    injection heq3 with h4 h5
    exact Except.noConfusion h5

/-- Claim C7: a setup attempt with a password shorter than 6 characters or a
mismatched confirmation fails with the validation alert before any store
access (state unchanged, no Credential written, no key created); otherwise
it draws a random salt, derives and installs the key, persists the
Credential, runs the legacy migration, and ends up unlocked — so "abc123"
with matching confirmation succeeds and "ab1" fails. -/
theorem claim_C7_setup_validation (password confirm : String) (st : AppState) :
    (password.length < 6 →
      setupBtnHandler password confirm st = (st, .alertTooShort)) ∧
    (6 ≤ password.length → password ≠ confirm →
      setupBtnHandler password confirm st = (st, .alertMismatch)) ∧
    (6 ≤ password.length → password = confirm →
      (setupBtnHandler password confirm st).2 = .success ∧
      (setupBtnHandler password confirm st).1.db.settings
        = some ⟨sha256 (utf8Encode password),
            st.ivSupply.headD (List.replicate 12 0)⟩ ∧
      (setupBtnHandler password confirm st).1.encryptionKey
        = some (deriveKey password (st.ivSupply.headD (List.replicate 12 0))) ∧
      (setupBtnHandler password confirm st).1.legacyJournals
        = (if st.legacyJournals.getD [] = [] then st.legacyJournals else none) ∧
      (setupBtnHandler password confirm st).1.legacyTasks
        = (if st.legacyTasks.getD [] = [] then st.legacyTasks else none) ∧
      (setupBtnHandler password confirm st).1.legacyEvents
        = (if st.legacyEvents.getD [] = [] then st.legacyEvents else none)) := by
  refine ⟨?_, ?_, ?_⟩
  · intro h
    unfold setupBtnHandler
    rw [if_pos (Or.inr h)]
  · intro hlen hne
    have hcond : ¬ (password = "" ∨ password.length < 6) := by
      rintro (rfl | hlt)
      · simp at hlen
      · omega
    unfold setupBtnHandler
    rw [if_neg hcond, if_pos hne]
  · intro hlen heq
    have hcond : ¬ (password = "" ∨ password.length < 6) := by
      rintro (rfl | hlt)
      · simp at hlen
      · omega
    obtain ⟨hsp, hret⟩ := setupPassword_spec password st
    obtain ⟨-, -, -, -, m5, m6, m7, m8, m9, -⟩ :=
      migrateFromLocalStorage_spec (postSetupState password st)
        (deriveKey password (st.ivSupply.headD (List.replicate 12 0))) rfl
    have hfinal : setupBtnHandler password confirm st =
        (initAppRender
          (migrateFromLocalStorage (postSetupState password st)).1, .success) := by
      unfold setupBtnHandler
      rw [if_neg hcond, if_neg (not_not_intro heq), hsp]
    rw [hfinal]
    exact ⟨rfl, m8.trans rfl, m9.trans rfl, m5.trans rfl, m6.trans rfl,
      m7.trans rfl⟩

/-- Claim C7 witness: "ab1" is rejected before any store access and "abc123"
succeeds, installing the key derived from the drawn salt. -/
theorem claim_C7_setup_validation_witness :
    setupBtnHandler "ab1" "ab1" emptyState = (emptyState, .alertTooShort) ∧
    (setupBtnHandler "abc123" "abc123" emptyState).2 = SetupResult.success ∧
    (setupBtnHandler "abc123" "abc123" emptyState).1.encryptionKey
      = some (deriveKey "abc123" (List.replicate 12 0)) :=
  ⟨(claim_C7_setup_validation "ab1" "ab1" emptyState).1 (by decide),
   ((claim_C7_setup_validation "abc123" "abc123" emptyState).2.2
      (by decide) rfl).1,
   ((claim_C7_setup_validation "abc123" "abc123" emptyState).2.2
      (by decide) rfl).2.2.1⟩

theorem dayMs_pos : (0 : Int) < dayMs := by decide

theorem fdiv_mul_add_day (a r : Int) (h0 : 0 ≤ r) (h1 : r < dayMs) :
    (a * dayMs + r).fdiv dayMs = a := by
  rw [Int.fdiv_eq_ediv _ (by decide : (0:Int) ≤ dayMs)]
  rw [add_comm, Int.add_mul_ediv_right _ _ (by decide : (dayMs:Int) ≠ 0)]
  rw [Int.ediv_eq_zero_of_lt h0 h1]
  omega

theorem dayIndex_decomp (t : Int) :
    t = dayIndex t * dayMs + t.fmod dayMs
      ∧ 0 ≤ t.fmod dayMs ∧ t.fmod dayMs < dayMs := by
  refine ⟨?_, Int.fmod_nonneg' t (by decide), Int.fmod_lt_of_pos t dayMs_pos⟩
  have h := Int.fmod_add_fdiv t dayMs
  unfold dayIndex
  rw [mul_comm] at h
  omega

theorem toDateString_ne_empty (t : Int) : toDateString t ≠ "" := by
  intro h
  have hd : (toDateString t).data = ([] : List Char) := by rw [h]
  simp [toDateString] at hd

theorem toDateString_inj (s t : Int) (h : toDateString s = toDateString t) :
    dayIndex s = dayIndex t := by
  have h2 := congrArg jsParseDate h
  rw [jsParseDate_toDateString, jsParseDate_toDateString] at h2
  exact mul_right_cancel₀ (by decide : (dayMs:Int) ≠ 0) h2

/-- Claim C9 counterexample: on day 4 (clock before the recorded last-entry day 5)
no journal entry was created on the current calendar date and the user has
journaled before, yet `checkJournalReminder` emits nothing — the computed
`daysSinceLastEntry` is negative, so neither the reminder nor the welcome
message fires. -/
theorem claim_C9_counterexample :
    stClock.lastJournalDate ≠ "" ∧
    stClock.lastJournalDate ≠ toDateString (4 * dayMs + 1000) ∧
    checkJournalReminder (4 * dayMs + 1000) stClock = [] :=
  ⟨by decide, by decide, by decide⟩

/-- Claim C9 amended: when `lastJournalDate` records an earlier calendar day than
the current one, `checkJournalReminder` emits one reminder naming the number
of calendar days since the last entry; when the user has never journaled it
emits the distinct welcome message; but when the recorded last-entry day
lies after the current day (clock moved backwards) it emits nothing. -/
theorem claim_C9_journal_reminder (st : AppState) (now last : Int) :
    (st.lastJournalDate = "" → checkJournalReminder now st = [.welcome]) ∧
    (st.lastJournalDate = toDateString last → dayIndex last < dayIndex now →
      checkJournalReminder now st
        = [.journalReminder (dayIndex now - dayIndex last)]) ∧
    (st.lastJournalDate = toDateString last → dayIndex now < dayIndex last →
      checkJournalReminder now st = []) := by
  have hdays : ∀ k : Int, (now - k * dayMs).fdiv dayMs = dayIndex now - k := by
    intro k
    obtain ⟨hd, h0, h1⟩ := dayIndex_decomp now
    have hsplit : now - k * dayMs
        = (dayIndex now - k) * dayMs + now.fmod dayMs := by
      calc now - k * dayMs
          = (dayIndex now * dayMs + now.fmod dayMs) - k * dayMs := by rw [← hd]
        _ = (dayIndex now - k) * dayMs + now.fmod dayMs := by ring
    rw [hsplit, fdiv_mul_add_day _ _ h0 h1]
  refine ⟨?_, ?_, ?_⟩
  · intro h
    have h1 : ("" : String) ≠ toDateString now := Ne.symm (toDateString_ne_empty now)
    simp [checkJournalReminder, h, h1]
  · intro h hlt
    have hne : st.lastJournalDate ≠ toDateString now := by
      rw [h]
      intro habs
      have := toDateString_inj last now habs
      omega
    have hemp : st.lastJournalDate ≠ "" := by
      rw [h]
      exact toDateString_ne_empty last
    have hparse : jsParseDate st.lastJournalDate = dayIndex last * dayMs := by
      rw [h, jsParseDate_toDateString]
    have hgt : (now - jsParseDate st.lastJournalDate).fdiv dayMs > 0 := by
      rw [hparse, hdays]
      omega
    simp only [checkJournalReminder]
    rw [if_pos hne, if_neg hemp, if_pos hgt, hparse, hdays]
  · intro h hlt
    have hne : st.lastJournalDate ≠ toDateString now := by
      rw [h]
      intro habs
      have := toDateString_inj last now habs
      omega
    have hemp : st.lastJournalDate ≠ "" := by
      rw [h]
      exact toDateString_ne_empty last
    have hparse : jsParseDate st.lastJournalDate = dayIndex last * dayMs := by
      rw [h, jsParseDate_toDateString]
    have hngt : ¬ ((now - jsParseDate st.lastJournalDate).fdiv dayMs > 0) := by
      rw [hparse, hdays]
      omega
    simp only [checkJournalReminder]
    rw [if_pos hne, if_neg hemp, if_neg hngt]

/-- Claim C9 witness: the welcome message for a user who never journaled, and the
two-day reminder when the last entry is two calendar days old. -/
theorem claim_C9_journal_reminder_witness :
    checkJournalReminder (5 * dayMs + 7) emptyState = [.welcome] ∧
    checkJournalReminder (5 * dayMs + 7) stPast
      = [.journalReminder (dayIndex (5 * dayMs + 7) - dayIndex (3 * dayMs))] :=
  ⟨(claim_C9_journal_reminder emptyState (5 * dayMs + 7) 0).1 rfl,
   (claim_C9_journal_reminder stPast (5 * dayMs + 7) (3 * dayMs)).2.1 rfl
     (by decide)⟩

theorem string_append_left_inj (p a b : String) (h : p ++ a = p ++ b) : a = b := by
  obtain ⟨da⟩ := a
  obtain ⟨db⟩ := b
  have h2 := congrArg String.data h
  rw [String.data_append, String.data_append] at h2
  have h3 : da = db := List.append_cancel_left h2
  rw [h3]

theorem notified_ne_event_key (a b : String) :
    ("notified_" ++ a : String) ≠ "event_notified_" ++ b := by
  intro h
  have h2 := congrArg String.data h
  rw [String.data_append, String.data_append] at h2
  have ha : ("notified_" : String).data
      = ['n', 'o', 't', 'i', 'f', 'i', 'e', 'd', '_'] := rfl
  have hb : ("event_notified_" : String).data
      = ['e', 'v', 'e', 'n', 't', '_', 'n', 'o', 't', 'i', 'f', 'i', 'e', 'd', '_'] := rfl
  rw [ha, hb] at h2
  simp at h2

theorem strTruthy_toIso (t : Int) : strTruthy (some (toIsoString t)) = true := by
  simp [strTruthy, toIsoString_ne_empty]

theorem countStartingNow_append (s : String) (l1 l2 : List Notification) :
    countStartingNow s (l1 ++ l2)
      = countStartingNow s l1 + countStartingNow s l2 := by
  simp [countStartingNow, List.countP_append]

theorem processEvent_spec (now : Int) (ev : JsRecord)
    (ls : List (String × String)) (s : String) :
    countStartingNow s (processEvent now ev ls).2 ≤ 1 ∧
    (strTruthy (lsGet ls ("event_notified_" ++ s)) = true →
      countStartingNow s (processEvent now ev ls).2 = 0) ∧
    ((strTruthy (lsGet (processEvent now ev ls).1 ("event_notified_" ++ s)) = true)
      ↔ (strTruthy (lsGet ls ("event_notified_" ++ s)) = true
         ∨ 1 ≤ countStartingNow s (processEvent now ev ls).2)) := by
  simp only [processEvent]
  split_ifs with h1 h2 h3 h4
  · exact ⟨by simp [countStartingNow], fun _ => by simp [countStartingNow],
      by simp [countStartingNow]⟩
  · by_cases hs : jsPrimToString (fieldOf ev "id") = s
    · rw [hs]
      have hc : countStartingNow s [Notification.startingNow s] = 1 := by
        simp [countStartingNow]
      refine ⟨by rw [hc], ?_, ?_⟩
      · intro ht
        rw [hs] at h2
        exact absurd ht h2
      · rw [hc, lsGet_lsSet_same]
        simp [strTruthy_toIso]
    · have hc : countStartingNow s
          [Notification.startingNow (jsPrimToString (fieldOf ev "id"))] = 0 := by
        simp [countStartingNow, hs]
      have hkey : ("event_notified_" ++ s : String)
          ≠ "event_notified_" ++ jsPrimToString (fieldOf ev "id") := by
        intro habs
        exact hs (string_append_left_inj _ _ _ habs.symm)
      refine ⟨by rw [hc]; omega, fun _ => hc, ?_⟩
      rw [hc, lsGet_lsSet_other _ _ _ _ hkey]
      simp
  · have hc : countStartingNow s
        [Notification.upcoming (jsPrimToString (fieldOf ev "id"))
          ((jsDateValue (fieldOf ev "dateTime") - now).fdiv (1000 * 60))] = 0 := by
      simp [countStartingNow]
    have hkey : ("event_notified_" ++ s : String)
        ≠ "notified_" ++ jsPrimToString (fieldOf ev "id") :=
      (notified_ne_event_key _ _).symm
    refine ⟨by rw [hc]; omega, fun _ => hc, ?_⟩
    rw [hc, lsGet_lsSet_other _ _ _ _ hkey]
    simp
  · exact ⟨by simp [countStartingNow], fun _ => by simp [countStartingNow],
      by simp [countStartingNow]⟩
  · exact ⟨by simp [countStartingNow], fun _ => by simp [countStartingNow],
      by simp [countStartingNow]⟩

theorem processEvents_spec (now : Int) (s : String) (evs : List JsRecord) :
    ∀ ls : List (String × String),
    countStartingNow s (processEvents now evs ls).2 ≤ 1 ∧
    (strTruthy (lsGet ls ("event_notified_" ++ s)) = true →
      countStartingNow s (processEvents now evs ls).2 = 0) ∧
    ((strTruthy (lsGet (processEvents now evs ls).1 ("event_notified_" ++ s)) = true)
      ↔ (strTruthy (lsGet ls ("event_notified_" ++ s)) = true
         ∨ 1 ≤ countStartingNow s (processEvents now evs ls).2)) := by
  induction evs with
  | nil =>
    intro ls
    refine ⟨by simp [processEvents, countStartingNow],
      fun _ => by simp [processEvents, countStartingNow], ?_⟩
    simp [processEvents, countStartingNow]
  | cons ev evs ih =>
    intro ls
    have hsplit2 : (processEvents now (ev :: evs) ls).2
        = (processEvent now ev ls).2
          ++ (processEvents now evs (processEvent now ev ls).1).2 := rfl
    have hsplit1 : (processEvents now (ev :: evs) ls).1
        = (processEvents now evs (processEvent now ev ls).1).1 := rfl
    obtain ⟨pa, pb, pc⟩ := processEvent_spec now ev ls s
    obtain ⟨ia, ib, ic⟩ := ih (processEvent now ev ls).1
    rw [hsplit1, hsplit2, countStartingNow_append]
    refine ⟨?_, ?_, ?_⟩
    · by_cases t0 : strTruthy (lsGet ls ("event_notified_" ++ s)) = true
      · have hc1 := pb t0
        have hc2 := ib (pc.mpr (Or.inl t0))
        omega
      · by_cases hco : 1 ≤ countStartingNow s (processEvent now ev ls).2
        · have hc2 := ib (pc.mpr (Or.inr hco))
          omega
        · have := ia
          omega
    · intro t0
      have hc1 := pb t0
      have hc2 := ib (pc.mpr (Or.inl t0))
      omega
    · rw [ic, pc]
      constructor
      · rintro ((t0 | hc1) | hc2)
        · exact Or.inl t0
        · right
          omega
        · right
          omega
      · rintro (t0 | hsum)
        · exact Or.inl (Or.inl t0)
        · by_cases hc1 : 1 ≤ countStartingNow s (processEvent now ev ls).2
          · exact Or.inl (Or.inr hc1)
          · right
            omega

theorem runReminderTicks_spec (s : String) (ts : List Int) :
    ∀ st : AppState,
    countStartingNow s (runReminderTicks ts st).2 ≤ 1 ∧
    (strTruthy (lsGet st.localStorageFlags ("event_notified_" ++ s)) = true →
      countStartingNow s (runReminderTicks ts st).2 = 0) ∧
    ((strTruthy
        (lsGet (runReminderTicks ts st).1.localStorageFlags
          ("event_notified_" ++ s)) = true)
      ↔ (strTruthy (lsGet st.localStorageFlags ("event_notified_" ++ s)) = true
         ∨ 1 ≤ countStartingNow s (runReminderTicks ts st).2)) := by
  induction ts with
  | nil =>
    intro st
    refine ⟨by simp [runReminderTicks, countStartingNow],
      fun _ => by simp [runReminderTicks, countStartingNow], ?_⟩
    simp [runReminderTicks, countStartingNow]
  | cons t ts ih =>
    intro st
    have hsplit2 : (runReminderTicks (t :: ts) st).2
        = (checkEventReminders t st).2
          ++ (runReminderTicks ts (checkEventReminders t st).1).2 := rfl
    have hsplit1 : (runReminderTicks (t :: ts) st).1
        = (runReminderTicks ts (checkEventReminders t st).1).1 := rfl
    have hfl : (checkEventReminders t st).1.localStorageFlags
        = (processEvents t st.events st.localStorageFlags).1 := rfl
    have hn2 : (checkEventReminders t st).2
        = (processEvents t st.events st.localStorageFlags).2 := rfl
    obtain ⟨pa, pb, pc⟩ := processEvents_spec t s st.events st.localStorageFlags
    obtain ⟨ia, ib, ic⟩ := ih (checkEventReminders t st).1
    rw [hfl] at ib ic
    rw [hsplit1, hsplit2, countStartingNow_append, hn2]
    refine ⟨?_, ?_, ?_⟩
    · by_cases t0 : strTruthy (lsGet st.localStorageFlags
          ("event_notified_" ++ s)) = true
      · have hc1 := pb t0
        have hc2 := ib (pc.mpr (Or.inl t0))
        omega
      · by_cases hco : 1 ≤ countStartingNow s
            (processEvents t st.events st.localStorageFlags).2
        · have hc2 := ib (pc.mpr (Or.inr hco))
          omega
        · have := pa
          have := ia
          omega
    · intro t0
      have hc1 := pb t0
      have hc2 := ib (pc.mpr (Or.inl t0))
      omega
    · rw [ic, pc]
      constructor
      · rintro ((t0 | hc1) | hc2)
        · exact Or.inl t0
        · right
          omega
        · right
          omega
      · rintro (t0 | hsum)
        · exact Or.inl (Or.inl t0)
        · by_cases hc1 : 1 ≤ countStartingNow s
              (processEvents t st.events st.localStorageFlags).2
          · exact Or.inl (Or.inr hc1)
          · right
            omega

/-- Claim C8: across every sequence of `checkEventReminders` ticks, an
"event starting now" notification fires at most once ever per logical id —
the event-notified marker is written on first firing and consulted
on every later check — and a completed `deleteEvent(id)` clears that marker
together with the notified-prefixed upcoming marker. -/
theorem claim_C8_event_reminder_once :
    (∀ (st : AppState) (ts : List Int) (s : String),
      countStartingNow s (runReminderTicks ts st).2 ≤ 1) ∧
    (∀ (id : Int) (st st2 : AppState), deleteEvent id st = (st2, .ok ()) →
      lsGet st2.localStorageFlags ("notified_" ++ toString id) = none ∧
      lsGet st2.localStorageFlags ("event_notified_" ++ toString id) = none) := by
  constructor
  · intro st ts s
    exact (runReminderTicks_spec s ts st).1
  · intro id st st2 h
    cases hscan : scanFind st.encryptionKey id st.db.events with
    | error e =>
      simp only [deleteEvent, hscan] at h
      injection h with hA hB
      exact Except.noConfusion hB
    | ok found =>
      simp only [deleteEvent, hscan] at h
      injection h with hA hB
      subst hA
      dsimp only []
      constructor
      · rw [lsGet_lsRemove_other _ _ _
          (notified_ne_event_key (toString id) (toString id))]
        exact lsGet_lsRemove_same _ _
      · exact lsGet_lsRemove_same _ _

set_option maxRecDepth 8000 in
/-- Claim C8 witness: the at-most-once bound instantiated on a concrete run, and a
concrete successful `deleteEvent` clearing both markers. -/
theorem claim_C8_event_reminder_once_witness :
    countStartingNow "7" (runReminderTicks [0] stDel).2 ≤ 1 ∧
    (lsGet ((deleteEvent 7 stDel).1).localStorageFlags
        ("notified_" ++ toString (7 : Int)) = none ∧
     lsGet ((deleteEvent 7 stDel).1).localStorageFlags
        ("event_notified_" ++ toString (7 : Int)) = none) :=
  ⟨claim_C8_event_reminder_once.1 stDel [0] "7",
   claim_C8_event_reminder_once.2 7 stDel (deleteEvent 7 stDel).1 rfl⟩
